import Mathlib

/-!
Shallow embedding of the vault-mcp virtual-transaction engine
(`src/vault-client.ts`, class `VaultClient`): transaction executor with
automatic rollback planning, LIFO rollback, dry-run simulator with
intra-batch simulated state, and best-effort bulk executors.

The remote secret store is modelled as an association list from paths to
payloads, threaded explicitly through every operation together with a trace
of raw store calls and an injectable schedule of transient transport
failures (`failAt`: indices of store calls that error).  Asynchrony is
irrelevant here because the source awaits every store call before issuing
the next one; the embedding is the induced sequential semantics.
-/

set_option maxRecDepth 4000

deriving instance DecidableEq for Except

namespace VaultTx

/-- JSON-like secret payload, modelled as an association list of fields. -/
abbrev Data := List (String × Nat)

/-- Operation kinds of the shared operation model (`OperationType`). -/
inductive OpType
  | create
  | update
  | delete
  | read
deriving DecidableEq

/-- A forward transaction operation (`TransactionOperation`): `data` is
optional exactly as in the source (`data?`). -/
structure TransactionOperation where
  type : OpType
  path : String
  data : Option Data
deriving DecidableEq

/-- A compensating operation (`RollbackOperation`). -/
structure RollbackOperation where
  type : OpType
  path : String
  originalData : Option Data
deriving DecidableEq

/-- `InternalTransactionalOperation`: forward operation plus its
system-computed rollback. -/
structure InternalOp where
  forward : TransactionOperation
  rollback : RollbackOperation
deriving DecidableEq

/-- The configuration bits the engine consults (`VaultConfig`):
`allowedPaths` (empty list = no restriction, as in `isPathAllowed`) and the
read/write permission flags. -/
structure VaultConfig where
  allowedPaths : List String
  readPerm : Bool
  writePerm : Bool
deriving DecidableEq

/-- A raw store call issued to the node-vault client. -/
inductive StoreCall
  | readC (path : String)
  | writeC (path : String) (d : Data)
  | deleteC (path : String)
deriving DecidableEq

/-- Is a raw store call non-mutating? -/
def isReadCall : StoreCall → Bool
  | StoreCall.readC _ => true
  | StoreCall.writeC _ _ => false
  | StoreCall.deleteC _ => false

/-- The world outside the client: the remote store contents, a schedule of
transient transport failures (the n-th raw store call fails iff
`n ∈ failAt`), the running call counter, and the trace of raw calls issued
so far. -/
structure World where
  store : List (String × Data)
  failAt : List Nat
  callCount : Nat
  trace : List StoreCall
deriving DecidableEq

/-- Errors thrown by the client layer. -/
inductive VErr
  | notFound
  | pathNotAllowed (path : String)
  | permissionDenied (msg : String)
  | transport (path : String)
  | planningFailure (msg : String)
deriving DecidableEq

/-- Error message rendering (stands in for the TS error `message` strings). -/
def errMsg : VErr → String
  | VErr.notFound => "Status 404"
  | VErr.pathNotAllowed p => "Access to path is not allowed: " ++ p
  | VErr.permissionDenied m => m
  | VErr.transport p => "transport error: " ++ p
  | VErr.planningFailure m => m

/-- Association-list lookup of a path in the store. -/
def lookupPath : List (String × Data) → String → Option Data
  | [], _ => none
  | (q, d) :: rest, p => if q == p then some d else lookupPath rest p

/-- Association-list overwrite-or-append of a path binding. -/
def setPath : List (String × Data) → String → Data → List (String × Data)
  | [], p, d => [(p, d)]
  | (q, e) :: rest, p, d =>
    if q == p then (q, d) :: rest else (q, e) :: setPath rest p d

/-- Association-list removal of a path binding. -/
def removePath : List (String × Data) → String → List (String × Data)
  | [], _ => []
  | (q, e) :: rest, p =>
    if q == p then removePath rest p else (q, e) :: removePath rest p

/-- Does the current raw store call fail (transient transport error)? -/
def callFails (w : World) : Bool := w.failAt.contains w.callCount

/-- Record a raw store call: bump the counter and append to the trace. -/
def bump (w : World) (c : StoreCall) : World :=
  { w with callCount := w.callCount + 1, trace := w.trace ++ [c] }

/-- `this.client.read(path)`: errors with 404 when the path is absent.
Reads never change the store, so the resulting world is the bumped one in
every branch. -/
def clientRead (w : World) (p : String) : Except VErr Data × World :=
  (if callFails w then Except.error (VErr.transport p)
   else
     match lookupPath w.store p with
     | some d => Except.ok d
     | none => Except.error VErr.notFound,
   bump w (StoreCall.readC p))

/-- `this.client.write(path, {data})`. -/
def clientWrite (w : World) (p : String) (d : Data) : Except VErr Unit × World :=
  let w' := bump w (StoreCall.writeC p d)
  if callFails w then (Except.error (VErr.transport p), w')
  else (Except.ok (), { w' with store := setPath w'.store p d })

/-- `this.client.delete(path)`: idempotent at the raw level. -/
def clientDelete (w : World) (p : String) : Except VErr Unit × World :=
  let w' := bump w (StoreCall.deleteC p)
  if callFails w then (Except.error (VErr.transport p), w')
  else (Except.ok (), { w' with store := removePath w'.store p })

/-- Character-list implementation of the TS `path.startsWith(allowedPath)`
test: does the first list start with the second?  (Written recursively so
that concrete instances evaluate inside the kernel.) -/
def charsStartWith : List Char → List Char → Bool
  | _, [] => true
  | [], _ :: _ => false
  | c :: cs, a :: as => c == a && charsStartWith cs as

/-- `VaultClient.isPathAllowed` via `utils.isPathAllowed`: an empty allow
list permits everything; otherwise some allowed path must be a prefix of
the requested path. -/
def isPathAllowed (cfg : VaultConfig) (p : String) : Bool :=
  cfg.allowedPaths.isEmpty ||
    cfg.allowedPaths.any (fun a => charsStartWith p.data a.data)

/-- `VaultClient.readSecret`: permission and allow-list checks, then a raw
read; a 404 becomes `none` instead of an error. -/
def readSecret (cfg : VaultConfig) (w : World) (p : String) :
    Except VErr (Option Data) × World :=
  if !cfg.readPerm then
    (Except.error (VErr.permissionDenied "Read operations are not permitted"), w)
  else if !isPathAllowed cfg p then (Except.error (VErr.pathNotAllowed p), w)
  else
    match clientRead w p with
    | (Except.ok d, w') => (Except.ok (some d), w')
    | (Except.error VErr.notFound, w') => (Except.ok none, w')
    | (Except.error e, w') => (Except.error e, w')

/-- `VaultClient.deleteSecret` (commit mode): permission and allow-list
checks, then a raw delete. -/
def deleteSecret (cfg : VaultConfig) (w : World) (p : String) :
    Except VErr Unit × World :=
  if !cfg.writePerm then
    (Except.error (VErr.permissionDenied "Write operations are not permitted"), w)
  else if !isPathAllowed cfg p then (Except.error (VErr.pathNotAllowed p), w)
  else clientDelete w p

/-- `VaultClient.calculateRollbackOperation`.  Create → delete; update →
update with the current value (or `{}` when absent) as `originalData`, and
delete as fallback when the pre-read throws; delete → create with the
current value, failing when the path is absent or the pre-read throws;
read → read (no-op). -/
def calculateRollbackOperation (cfg : VaultConfig) (w : World)
    (op : TransactionOperation) : Except VErr RollbackOperation × World :=
  match op.type with
  | OpType.create => (Except.ok ⟨OpType.delete, op.path, none⟩, w)
  | OpType.update =>
    match readSecret cfg w op.path with
    | (Except.ok es, w') =>
        (Except.ok ⟨OpType.update, op.path, some (es.getD [])⟩, w')
    | (Except.error _, w') => (Except.ok ⟨OpType.delete, op.path, none⟩, w')
  | OpType.delete =>
    match readSecret cfg w op.path with
    | (Except.ok (some d), w') =>
        (Except.ok ⟨OpType.create, op.path, some d⟩, w')
    | (Except.ok none, w') =>
        (Except.error (VErr.planningFailure
          ("Cannot calculate rollback for delete operation: " ++ op.path)), w')
    | (Except.error _, w') =>
        (Except.error (VErr.planningFailure
          ("Cannot calculate rollback for delete operation: " ++ op.path)), w')
  | OpType.read => (Except.ok ⟨OpType.read, op.path, none⟩, w)

/-- `VaultClient.prepareTransactionOperations`: plan the rollback of every
operation, in order, failing fast on the first planning error. -/
def prepareTransactionOperations (cfg : VaultConfig) :
    World → List TransactionOperation → Except VErr (List InternalOp) × World
  | w, [] => (Except.ok [], w)
  | w, op :: rest =>
    match calculateRollbackOperation cfg w op with
    | (Except.error e, w') =>
        (Except.error (VErr.planningFailure
          ("Failed to prepare rollback for operation: " ++ errMsg e)), w')
    | (Except.ok rb, w') =>
      match prepareTransactionOperations cfg w' rest with
      | (Except.ok tail, w'') => (Except.ok (⟨op, rb⟩ :: tail), w'')
      | (Except.error e, w'') => (Except.error e, w'')

/-- One per-operation outcome record (`BulkOperationResult` as used by the
transaction executor; the `data` payload field is not modelled). -/
structure OpResult where
  path : String
  success : Bool
  error : Option String
  rollbackExecuted : Option Bool
deriving DecidableEq

/-- The body of the inner `try` of phase 1 of
`executeTransactionInternal`: permission check plus the dispatched raw
store call for one forward operation. -/
def forwardStep (cfg : VaultConfig) (w : World) (iop : InternalOp) :
    Except String Unit × World :=
  match iop.forward.type with
  | OpType.create | OpType.update =>
    if !cfg.writePerm then
      (Except.error "Write operations are not permitted", w)
    else
      match clientWrite w iop.forward.path (iop.forward.data.getD []) with
      | (Except.ok _, w') => (Except.ok (), w')
      | (Except.error e, w') => (Except.error (errMsg e), w')
  | OpType.delete =>
    if !cfg.writePerm then
      (Except.error "Write operations are not permitted", w)
    else
      match clientDelete w iop.forward.path with
      | (Except.ok _, w') => (Except.ok (), w')
      | (Except.error e, w') => (Except.error (errMsg e), w')
  | OpType.read =>
    if !cfg.readPerm then
      (Except.error "Read operations are not permitted", w)
    else
      match clientRead w iop.forward.path with
      | (Except.ok _, w') => (Except.ok (), w')
      | (Except.error e, w') => (Except.error (errMsg e), w')

/-- Outcome of phase 1 of `executeTransactionInternal`: the loop either
completes, stops at the first failing forward operation (the inner
`catch`), or is aborted by the path-allowed check throwing out of the loop
(the outer `catch`). -/
inductive FwdOut
  | allOk (results : List OpResult) (completed : List (Nat × InternalOp)) (w : World)
  | failedOp (k : Nat) (results : List OpResult)
      (completed : List (Nat × InternalOp)) (w : World)
  | fatal (k : Nat) (results : List OpResult)
      (completed : List (Nat × InternalOp)) (w : World)
deriving DecidableEq

/-- Phase 1 of `executeTransactionInternal`: execute forward operations in
order, recording one result per attempted operation and pushing committed
ones onto the `completedOperations` stack.  (The source builds `results`
and `completedOperations` by pushing inside the loop; the recursion here
builds the same lists, in the same order, by consing.) -/
def runForward (cfg : VaultConfig) : World → List InternalOp → Nat → FwdOut
  | w, [], _ => FwdOut.allOk [] [] w
  | w, iop :: rest, i =>
    if !isPathAllowed cfg iop.forward.path then FwdOut.fatal i [] [] w
    else
      match forwardStep cfg w iop with
      | (Except.ok _, w') =>
        match runForward cfg w' rest (i + 1) with
        | FwdOut.allOk R C w'' =>
            FwdOut.allOk (⟨iop.forward.path, true, none, none⟩ :: R)
              ((i, iop) :: C) w''
        | FwdOut.failedOp k R C w'' =>
            FwdOut.failedOp k (⟨iop.forward.path, true, none, none⟩ :: R)
              ((i, iop) :: C) w''
        | FwdOut.fatal k R C w'' =>
            FwdOut.fatal k (⟨iop.forward.path, true, none, none⟩ :: R)
              ((i, iop) :: C) w''
      | (Except.error e, w') =>
          FwdOut.failedOp i [⟨iop.forward.path, false, some e, none⟩] [] w'

/-- One step of `executeRollback`'s `switch`: apply a single rollback
operation, returning the error message when it throws.  Delete-rollbacks go
through `deleteSecret` (with its checks); update/create-rollbacks write via
the raw client; a create-rollback without `originalData` and a
read-rollback do nothing. -/
def rollbackStep (cfg : VaultConfig) (w : World) (rb : RollbackOperation) :
    Option String × World :=
  match rb.type with
  | OpType.delete =>
    match deleteSecret cfg w rb.path with
    | (Except.ok _, w') => (none, w')
    | (Except.error e, w') => (some (errMsg e), w')
  | OpType.update =>
    match rb.originalData with
    | some d =>
      match clientWrite w rb.path d with
      | (Except.ok _, w') => (none, w')
      | (Except.error e, w') => (some (errMsg e), w')
    | none =>
      match deleteSecret cfg w rb.path with
      | (Except.ok _, w') => (none, w')
      | (Except.error e, w') => (some (errMsg e), w')
  | OpType.create =>
    match rb.originalData with
    | some d =>
      match clientWrite w rb.path d with
      | (Except.ok _, w') => (none, w')
      | (Except.error e, w') => (some (errMsg e), w')
    | none => (none, w)
  | OpType.read => (none, w)

/-- The in-place update `executeRollback` applies to the found results
entry: a successful rollback step (`e = none`) sets
`rollbackExecuted = true`; a failed one sets `rollbackExecuted = false` and
appends the rollback error to the entry's error string (an absent forward
error stringifies as `"undefined"`, as in the source template literal). -/
def applyMark (r : OpResult) : Option String → OpResult
  | none => { r with rollbackExecuted := some true }
  | some m =>
    { r with rollbackExecuted := some false,
             error := some ((r.error.getD "undefined") ++
               "; Rollback failed: " ++ m) }

/-- The outcome recording of `executeRollback`:
`results.findIndex(r => r.path === p)` followed by the in-place update —
the FIRST result entry whose path matches is marked. -/
def markResults : List OpResult → String → Option String → List OpResult
  | [], _, _ => []
  | r :: rs, p, e =>
    if r.path == p then applyMark r e :: rs
    else r :: markResults rs p e

/-- Ghost record of one processed rollback step: the committed entry's
index, the entry, and the error of the rollback step (`none` = the step
succeeded). -/
structure RbRecord where
  index : Nat
  entry : InternalOp
  err : Option String
deriving DecidableEq

/-- The loop body of `executeRollback`, recursing over the entries in the
order they are processed (i.e. over the reversed committed stack), and
returning a ghost log of the processed steps in processing order. -/
def rollbackLoop (cfg : VaultConfig) :
    World → List (Nat × InternalOp) → List OpResult →
    List OpResult × List RbRecord × World
  | w, [], results => (results, [], w)
  | w, (i, iop) :: rest, results =>
    let s := rollbackStep cfg w iop.rollback
    let out := rollbackLoop cfg s.2 rest (markResults results iop.forward.path s.1)
    (out.1, ⟨i, iop, s.1⟩ :: out.2.1, out.2.2)

/-- `VaultClient.executeRollback`: iterate the committed stack from the
most recent entry to the oldest (LIFO). -/
def executeRollback (cfg : VaultConfig) (w : World)
    (completed : List (Nat × InternalOp)) (results : List OpResult) :
    List OpResult × List RbRecord × World :=
  rollbackLoop cfg w completed.reverse results

/-- Summary block of a `TransactionResult` (`duration` is not modelled). -/
structure TxSummary where
  total : Nat
  succeeded : Nat
  failed : Nat
  rolledBack : Nat
deriving DecidableEq

/-- `TransactionResult` (the `transactionId` and `duration` fields are not
modelled; `rollbackResults` is absent — here `[]` — on the all-success
path). -/
structure TransactionResult where
  success : Bool
  results : List OpResult
  rollbackResults : List OpResult
  summary : TxSummary
deriving DecidableEq

/-- `VaultClient.executeTransactionInternal`: phase 1 forward execution,
then on failure rollback of the committed stack and assembly of the failure
result (`failed = 1` from the inner catch, `failed = total − succeeded`
from the outer catch), on success the all-success result.  The ghost
rollback log is returned alongside. -/
def executeTransactionInternal (cfg : VaultConfig) (w : World)
    (iops : List InternalOp) : TransactionResult × List RbRecord × World :=
  match runForward cfg w iops 0 with
  | FwdOut.allOk results _ w' =>
      ({ success := true, results := results, rollbackResults := [],
         summary := ⟨iops.length, iops.length, 0, 0⟩ }, [], w')
  | FwdOut.failedOp _ results completed w' =>
      let rr := executeRollback cfg w' completed results
      ({ success := false, results := rr.1,
         rollbackResults := rr.1.filter (fun r => r.rollbackExecuted == some true),
         summary := ⟨iops.length, completed.length, 1, completed.length⟩ },
       rr.2.1, rr.2.2)
  | FwdOut.fatal _ results completed w' =>
      let rr := executeRollback cfg w' completed results
      ({ success := false, results := rr.1,
         rollbackResults := rr.1.filter (fun r => r.rollbackExecuted == some true),
         summary := ⟨iops.length, completed.length,
                     iops.length - completed.length, completed.length⟩ },
       rr.2.1, rr.2.2)

/-- `VaultClient.executeTransaction` in commit mode: plan all rollbacks up
front, then run the internal executor; a planning failure propagates as a
thrown error. -/
def executeTransaction (cfg : VaultConfig) (w : World)
    (ops : List TransactionOperation) :
    Except VErr TransactionResult × List RbRecord × World :=
  match prepareTransactionOperations cfg w ops with
  | (Except.error e, w') => (Except.error e, [], w')
  | (Except.ok iops, w') =>
    let r := executeTransactionInternal cfg w' iops
    (Except.ok r.1, r.2.1, r.2.2)

/-- `DryRunResult` (the constant `dryRun: true` field is not modelled). -/
structure DryRunData where
  wouldSucceed : Bool
  simulatedData : Option Data
  validationErrors : Option (List String)
  existingData : Option Data
  pathExists : Bool
deriving DecidableEq

/-- `VaultClient.simulateWriteSecret`: the structural validations never
fail for a typed payload, so the outcome is decided by the real pre-read
of the path (a 404 is absorbed by `readSecret`; any other read error makes
the simulation predict failure). -/
def simulateWriteSecret (cfg : VaultConfig) (w : World) (p : String)
    (d : Data) : DryRunData × World :=
  match readSecret cfg w p with
  | (Except.ok (some cur), w') =>
      ({ wouldSucceed := true, simulatedData := some d, validationErrors := none,
         existingData := some cur, pathExists := true }, w')
  | (Except.ok none, w') =>
      ({ wouldSucceed := true, simulatedData := some d, validationErrors := none,
         existingData := none, pathExists := false }, w')
  | (Except.error e, w') =>
      ({ wouldSucceed := false, simulatedData := none,
         validationErrors := some ["Failed to check existing data: " ++ errMsg e],
         existingData := none, pathExists := false }, w')

/-- `VaultClient.simulateDeleteSecret`: a real pre-read; deleting a missing
path predicts failure. -/
def simulateDeleteSecret (cfg : VaultConfig) (w : World) (p : String) :
    DryRunData × World :=
  match readSecret cfg w p with
  | (Except.ok (some cur), w') =>
      ({ wouldSucceed := true, simulatedData := some [("deleted", 1)],
         validationErrors := none, existingData := some cur, pathExists := true }, w')
  | (Except.ok none, w') =>
      ({ wouldSucceed := false, simulatedData := none,
         validationErrors := some ["Secret does not exist at the specified path"],
         existingData := none, pathExists := false }, w')
  | (Except.error e, w') =>
      ({ wouldSucceed := false, simulatedData := none,
         validationErrors := some ["Failed to check existing data: " ++ errMsg e],
         existingData := none, pathExists := false }, w')

/-- `DryRunOperationResult`. -/
structure DryRunOpResult where
  path : String
  success : Bool
  data : DryRunData
  wouldSucceed : Bool
  validationErrors : Option (List String)
deriving DecidableEq

/-- A failed simulation payload. -/
def failData (msgs : List String) : DryRunData :=
  { wouldSucceed := false, simulatedData := none, validationErrors := some msgs,
    existingData := none, pathExists := false }

/-- `VaultClient.simulateOperation`: permission/allow-list pre-checks as in
real execution, then per-kind simulation, with the create-on-existing and
update-on-missing overrides. -/
def simulateOperation (cfg : VaultConfig) (w : World)
    (op : TransactionOperation) : DryRunOpResult × World :=
  if op.type != OpType.read && !cfg.writePerm then
    (⟨op.path, false, failData ["Write operations are not permitted"], false,
      some ["Write operations are not permitted"]⟩, w)
  else if op.type == OpType.read && !cfg.readPerm then
    (⟨op.path, false, failData ["Read operations are not permitted"], false,
      some ["Read operations are not permitted"]⟩, w)
  else if !isPathAllowed cfg op.path then
    (⟨op.path, false, failData [errMsg (VErr.pathNotAllowed op.path)], false,
      some [errMsg (VErr.pathNotAllowed op.path)]⟩, w)
  else
    match op.type with
    | OpType.create | OpType.update =>
      match op.data with
      | none =>
        (⟨op.path, false,
          failData ["Data is required for create/update operations"], false,
          some ["Data is required for create/update operations"]⟩, w)
      | some d =>
        let sw := simulateWriteSecret cfg w op.path d
        let s1 :=
          if op.type == OpType.create && sw.1.pathExists then
            { sw.1 with
              wouldSucceed := false,
              validationErrors := some ((sw.1.validationErrors.getD []) ++
                ["Cannot create: secret already exists at this path"]) }
          else sw.1
        let s2 :=
          if op.type == OpType.update && !s1.pathExists then
            { s1 with
              wouldSucceed := false,
              validationErrors := some ((s1.validationErrors.getD []) ++
                ["Cannot update: secret does not exist at this path"]) }
          else s1
        (⟨op.path, s2.wouldSucceed, s2, s2.wouldSucceed, s2.validationErrors⟩, sw.2)
    | OpType.delete =>
      let sd := simulateDeleteSecret cfg w op.path
      (⟨op.path, sd.1.wouldSucceed, sd.1, sd.1.wouldSucceed,
        sd.1.validationErrors⟩, sd.2)
    | OpType.read =>
      match readSecret cfg w op.path with
      | (Except.ok s, w') =>
        (⟨op.path, true,
          { wouldSucceed := true, simulatedData := s, validationErrors := none,
            existingData := s, pathExists := s.isSome }, true, none⟩, w')
      | (Except.error e, w') =>
        (⟨op.path, false, failData [errMsg e], false, some [errMsg e]⟩, w')

/-- One entry of the `SimulatedState` overlay. -/
structure StateInfo where
  operation : OpType
  data : Option Data
  operationIndex : Nat
deriving DecidableEq

/-- `Map.get` on the simulated-state overlay. -/
def stGet : List (String × StateInfo) → String → Option StateInfo
  | [], _ => none
  | (q, v) :: rest, p => if q == p then some v else stGet rest p

/-- `Map.set` on the simulated-state overlay (overwrite or append). -/
def stSet : List (String × StateInfo) → String → StateInfo →
    List (String × StateInfo)
  | [], p, v => [(p, v)]
  | (q, u) :: rest, p, v =>
    if q == p then (q, v) :: rest else (q, u) :: stSet rest p v

/-- `VaultClient.simulateOperationWithState`: run the base simulation (with
its real pre-read), then override the prediction according to the overlay
entry for the path, if any.  The success overrides clear only the nested
`data.validationErrors`, exactly as the source does. -/
def simulateOperationWithState (cfg : VaultConfig) (w : World)
    (op : TransactionOperation) (st : List (String × StateInfo)) :
    DryRunOpResult × World :=
  let b := simulateOperation cfg w op
  let base := b.1
  match stGet st op.path with
  | none => b
  | some info =>
    if op.type == OpType.create && info.operation == OpType.delete then
      ({ base with
         data := { base.data with
                   pathExists := false, wouldSucceed := true,
                   validationErrors := none },
         wouldSucceed := true }, b.2)
    else if op.type == OpType.create && info.operation == OpType.create then
      let errs : Option (List String) := some
        ["Cannot create: secret would already exist due to previous operation in this transaction"]
      ({ base with
         data := { base.data with
                   pathExists := true, wouldSucceed := false,
                   validationErrors := errs },
         wouldSucceed := false, validationErrors := errs }, b.2)
    else if op.type == OpType.update && info.operation == OpType.create then
      ({ base with
         data := { base.data with
                   pathExists := true, wouldSucceed := true,
                   existingData := info.data, validationErrors := none },
         wouldSucceed := true }, b.2)
    else if op.type == OpType.delete &&
        (info.operation == OpType.create || info.operation == OpType.update) then
      ({ base with
         data := { base.data with
                   pathExists := true, wouldSucceed := true,
                   existingData := info.data, validationErrors := none },
         wouldSucceed := true }, b.2)
    else if op.type == OpType.delete && info.operation == OpType.delete then
      let errs : Option (List String) := some
        ["Cannot delete: secret would not exist due to previous operation in this transaction"]
      ({ base with
         data := { base.data with
                   pathExists := false, wouldSucceed := false,
                   validationErrors := errs },
         wouldSucceed := false, validationErrors := errs }, b.2)
    else if op.type == OpType.update && info.operation == OpType.delete then
      let errs : Option (List String) := some
        ["Cannot update: secret would not exist due to previous operation in this transaction"]
      ({ base with
         data := { base.data with
                   pathExists := false, wouldSucceed := false,
                   validationErrors := errs },
         wouldSucceed := false, validationErrors := errs }, b.2)
    else b

/-- `VaultClient.updateSimulatedState`: record a predicted-successful
operation in the overlay (`operationIndex` is the map size at set time). -/
def updateSimulatedState (st : List (String × StateInfo))
    (op : TransactionOperation) (res : DryRunOpResult) :
    List (String × StateInfo) :=
  if res.wouldSucceed then stSet st op.path ⟨op.type, op.data, st.length⟩ else st

/-- The `validationSummary` block of a dry-run transaction result. -/
structure ValidationSummary where
  totalOperations : Nat
  wouldSucceedCount : Nat
  wouldFailCount : Nat
  validationErrors : List (String × List String)
deriving DecidableEq

/-- `DryRunTransactionResult` (`transactionId`, `duration` and the constant
`dryRun`/`rolledBack := 0` fields are not modelled). -/
structure DryRunTxResult where
  success : Bool
  results : List DryRunOpResult
  wouldSucceed : Bool
  validationSummary : ValidationSummary
  totalOps : Nat
  succeededOps : Nat
  failedOps : Nat
deriving DecidableEq

/-- The loop of `executeTransactionDryRun`: simulate each operation against
the overlay, record its result, collect validation errors on predicted
failure, and fold predicted successes into the overlay.  The source's
catch-all around the simulation is unreachable here because every
simulation error is already returned as a value. -/
def dryRunLoop (cfg : VaultConfig) :
    World → List TransactionOperation → List (String × StateInfo) →
    (List DryRunOpResult × List (String × List String)) × World
  | w, [], _ => (([], []), w)
  | w, op :: rest, st =>
    let s := simulateOperationWithState cfg w op st
    if s.1.wouldSucceed then
      let out := dryRunLoop cfg s.2 rest (updateSimulatedState st op s.1)
      ((s.1 :: out.1.1, out.1.2), out.2)
    else
      let out := dryRunLoop cfg s.2 rest st
      ((s.1 :: out.1.1,
        (op.path, s.1.validationErrors.getD ["Unknown validation error"]) :: out.1.2),
       out.2)

/-- `VaultClient.executeTransactionDryRun`. -/
def executeTransactionDryRun (cfg : VaultConfig) (w : World)
    (ops : List TransactionOperation) : DryRunTxResult × World :=
  let r := dryRunLoop cfg w ops []
  let results := r.1.1
  let sc := results.countP (fun x => x.wouldSucceed)
  let fc := results.length - sc
  ({ success := fc == 0, results := results, wouldSucceed := fc == 0,
     validationSummary := ⟨ops.length, sc, fc, r.1.2⟩,
     totalOps := ops.length, succeededOps := sc, failedOps := fc }, r.2)

/-- An item of a bulk write batch (`BulkOperation`). -/
structure BulkItem where
  path : String
  data : Option Data
deriving DecidableEq

/-- `BulkOperationSummary` (`duration` is not modelled; the summary block
is flattened into the `total`/`succeeded`/`failed` fields). -/
structure BulkSummary where
  success : Bool
  results : List OpResult
  total : Nat
  succeeded : Nat
  failed : Nat
deriving DecidableEq

/-- The loop of `bulkWriteSecrets`: disallowed paths are recorded as
failures without a store call; otherwise the item is written (or, in dry
mode, simulated) and its outcome recorded; no failure stops the loop. -/
def bulkWriteLoop (cfg : VaultConfig) (dry : Bool) :
    World → List BulkItem → (List OpResult × Nat) × World
  | w, [] => (([], 0), w)
  | w, item :: rest =>
    if !isPathAllowed cfg item.path then
      let out := bulkWriteLoop cfg dry w rest
      ((⟨item.path, false, some (errMsg (VErr.pathNotAllowed item.path)), none⟩ ::
          out.1.1, out.1.2), out.2)
    else if dry then
      let s := simulateWriteSecret cfg w item.path (item.data.getD [])
      let out := bulkWriteLoop cfg dry s.2 rest
      ((⟨item.path, s.1.wouldSucceed,
          if s.1.wouldSucceed then none
          else some (String.intercalate ", " (s.1.validationErrors.getD [])), none⟩ ::
          out.1.1,
        (if s.1.wouldSucceed then 1 else 0) + out.1.2), out.2)
    else
      match clientWrite w item.path (item.data.getD []) with
      | (Except.ok _, w') =>
        let out := bulkWriteLoop cfg dry w' rest
        ((⟨item.path, true, none, none⟩ :: out.1.1, 1 + out.1.2), out.2)
      | (Except.error e, w') =>
        let out := bulkWriteLoop cfg dry w' rest
        ((⟨item.path, false, some (errMsg e), none⟩ :: out.1.1, out.1.2), out.2)

/-- `VaultClient.bulkWriteSecrets` (best-effort). -/
def bulkWriteSecrets (cfg : VaultConfig) (w : World) (items : List BulkItem)
    (dry : Bool) : Except VErr BulkSummary × World :=
  if !cfg.writePerm then
    (Except.error (VErr.permissionDenied "Write operations are not permitted"), w)
  else
    let r := bulkWriteLoop cfg dry w items
    (Except.ok { success := r.1.2 == items.length, results := r.1.1,
                 total := items.length, succeeded := r.1.2,
                 failed := items.length - r.1.2 }, r.2)

/-- The loop of `bulkDeleteSecrets`. -/
def bulkDeleteLoop (cfg : VaultConfig) (dry : Bool) :
    World → List String → (List OpResult × Nat) × World
  | w, [] => (([], 0), w)
  | w, p :: rest =>
    if !isPathAllowed cfg p then
      let out := bulkDeleteLoop cfg dry w rest
      ((⟨p, false, some (errMsg (VErr.pathNotAllowed p)), none⟩ :: out.1.1,
        out.1.2), out.2)
    else if dry then
      let s := simulateDeleteSecret cfg w p
      let out := bulkDeleteLoop cfg dry s.2 rest
      ((⟨p, s.1.wouldSucceed,
          if s.1.wouldSucceed then none
          else some (String.intercalate ", " (s.1.validationErrors.getD [])), none⟩ ::
          out.1.1,
        (if s.1.wouldSucceed then 1 else 0) + out.1.2), out.2)
    else
      match clientDelete w p with
      | (Except.ok _, w') =>
        let out := bulkDeleteLoop cfg dry w' rest
        ((⟨p, true, none, none⟩ :: out.1.1, 1 + out.1.2), out.2)
      | (Except.error e, w') =>
        let out := bulkDeleteLoop cfg dry w' rest
        ((⟨p, false, some (errMsg e), none⟩ :: out.1.1, out.1.2), out.2)

/-- `VaultClient.bulkDeleteSecrets` (best-effort). -/
def bulkDeleteSecrets (cfg : VaultConfig) (w : World) (paths : List String)
    (dry : Bool) : Except VErr BulkSummary × World :=
  if !cfg.writePerm then
    (Except.error (VErr.permissionDenied "Write operations are not permitted"), w)
  else
    let r := bulkDeleteLoop cfg dry w paths
    (Except.ok { success := r.1.2 == paths.length, results := r.1.1,
                 total := paths.length, succeeded := r.1.2,
                 failed := paths.length - r.1.2 }, r.2)

/-- The loop of `bulkReadSecrets`: it uses the raw client read, so a 404 is
recorded as a per-item failure. -/
def bulkReadLoop (cfg : VaultConfig) :
    World → List String → (List OpResult × Nat) × World
  | w, [] => (([], 0), w)
  | w, p :: rest =>
    if !isPathAllowed cfg p then
      let out := bulkReadLoop cfg w rest
      ((⟨p, false, some (errMsg (VErr.pathNotAllowed p)), none⟩ :: out.1.1,
        out.1.2), out.2)
    else
      match clientRead w p with
      | (Except.ok _, w') =>
        let out := bulkReadLoop cfg w' rest
        ((⟨p, true, none, none⟩ :: out.1.1, 1 + out.1.2), out.2)
      | (Except.error e, w') =>
        let out := bulkReadLoop cfg w' rest
        ((⟨p, false, some (errMsg e), none⟩ :: out.1.1, out.1.2), out.2)

/-- `VaultClient.bulkReadSecrets` (best-effort). -/
def bulkReadSecrets (cfg : VaultConfig) (w : World) (paths : List String) :
    Except VErr BulkSummary × World :=
  if !cfg.readPerm then
    (Except.error (VErr.permissionDenied "Read operations are not permitted"), w)
  else
    let r := bulkReadLoop cfg w paths
    (Except.ok { success := r.1.2 == paths.length, results := r.1.1,
                 total := paths.length, succeeded := r.1.2,
                 failed := paths.length - r.1.2 }, r.2)

/-! ## Derived notions and concrete fixtures -/

/-- A world evolution that leaves the store intact and issues only
non-mutating raw calls. -/
def ReadOnlyExt (w w' : World) : Prop :=
  w'.store = w.store ∧
  ∃ l, w'.trace = w.trace ++ l ∧ l.all (fun c => isReadCall c) = true

/-- The commit-mode transaction result inside an `Except`, with a dummy
value in the error case (used only to state concrete facts about calls
already known to return `Except.ok`). -/
def txOf (x : Except VErr TransactionResult) : TransactionResult :=
  match x with
  | Except.ok r => r
  | Except.error _ => ⟨false, [], [], ⟨0, 0, 0, 0⟩⟩

/-- The bulk summary inside an `Except`, with a dummy value in the error
case (used only to state concrete facts about calls already known to
return `Except.ok`). -/
def bsOf (x : Except VErr BulkSummary) : BulkSummary :=
  match x with
  | Except.ok r => r
  | Except.error _ => ⟨false, [], 0, 0, 0⟩

/-! ## Concrete fixtures used by witnesses and counterexamples -/

/-- A permissive configuration restricted to the `secret/` subtree. -/
def cfgAll : VaultConfig := ⟨["secret/"], true, true⟩

/-- An empty store with no transport faults. -/
def emptyWorld : World := ⟨[], [], 0, []⟩

def d1 : Data := [("x", 1)]

def d2 : Data := [("x", 2)]

/-- Two creates, the second on a path outside the allow list. -/
def opsAllowedThenDenied : List TransactionOperation :=
  [⟨OpType.create, "secret/a", some d1⟩, ⟨OpType.create, "bad/x", some d2⟩]

/-- Three creates on distinct paths, with their planned rollbacks; the
world `wFail23` makes the third forward write and the first rollback step
(the delete of `secret/b`) fail. -/
def iopsDistinct : List InternalOp :=
  [⟨⟨OpType.create, "secret/a", some d1⟩, ⟨OpType.delete, "secret/a", none⟩⟩,
   ⟨⟨OpType.create, "secret/b", some d1⟩, ⟨OpType.delete, "secret/b", none⟩⟩,
   ⟨⟨OpType.create, "secret/c", some d1⟩, ⟨OpType.delete, "secret/c", none⟩⟩]

/-- A batch whose first two operations share the path `secret/a`, with
their planned rollbacks; under `wFail23` the third forward write and the
rollback step of the update fail. -/
def iopsDup : List InternalOp :=
  [⟨⟨OpType.create, "secret/a", some d1⟩, ⟨OpType.delete, "secret/a", none⟩⟩,
   ⟨⟨OpType.update, "secret/a", some d2⟩, ⟨OpType.update, "secret/a", some []⟩⟩,
   ⟨⟨OpType.create, "secret/b", some d2⟩, ⟨OpType.delete, "secret/b", none⟩⟩]

/-- Empty store; raw store calls number 2 and 3 fail transiently. -/
def wFail23 : World := ⟨[], [2, 3], 0, []⟩

/-- A create followed by an update of the same path. -/
def opsCreateThenUpdate : List TransactionOperation :=
  [⟨OpType.create, "secret/a", some d1⟩, ⟨OpType.update, "secret/a", some d2⟩]

/-- Two creates of the same path. -/
def opsCreateTwice : List TransactionOperation :=
  [⟨OpType.create, "secret/a", some d1⟩, ⟨OpType.create, "secret/a", some d1⟩]

/-- Five bulk write items; the third targets a path outside the allow
list. -/
def items5 : List BulkItem :=
  [⟨"secret/a", some d1⟩, ⟨"secret/b", some d1⟩, ⟨"bad/c", some d1⟩,
   ⟨"secret/d", some d1⟩, ⟨"secret/e", some d1⟩]

/-! ## Frame properties: which worlds a computation can produce -/

lemma readOnlyExt_refl (w : World) : ReadOnlyExt w w :=
  ⟨rfl, [], by simp, rfl⟩

lemma readOnlyExt_trans {w₁ w₂ w₃ : World} (h₁ : ReadOnlyExt w₁ w₂)
    (h₂ : ReadOnlyExt w₂ w₃) : ReadOnlyExt w₁ w₃ := by
  obtain ⟨hs₁, l₁, ht₁, ha₁⟩ := h₁
  obtain ⟨hs₂, l₂, ht₂, ha₂⟩ := h₂
  refine ⟨hs₂.trans hs₁, l₁ ++ l₂, ?_, ?_⟩
  · rw [ht₂, ht₁, List.append_assoc]
  · simp [List.all_append, ha₁, ha₂]

lemma readOnlyExt_bump_read (w : World) (p : String) :
    ReadOnlyExt w (bump w (StoreCall.readC p)) :=
  ⟨rfl, [StoreCall.readC p], rfl, rfl⟩

lemma clientRead_world (w : World) (p : String) :
    (clientRead w p).2 = bump w (StoreCall.readC p) := rfl

/-- The world returned by `readSecret` is either the input world (denied
before any raw call) or the input world after one raw read of `p`. -/
lemma readSecret_world (cfg : VaultConfig) (w : World) (p : String) :
    (readSecret cfg w p).2 = w ∨
    (readSecret cfg w p).2 = bump w (StoreCall.readC p) := by
  unfold readSecret
  split
  · exact Or.inl rfl
  · split
    · exact Or.inl rfl
    · split <;> rename_i heq <;>
        exact Or.inr ((congrArg Prod.snd heq).symm.trans (clientRead_world w p))

lemma readSecret_frame (cfg : VaultConfig) (w : World) (p : String) :
    ReadOnlyExt w (readSecret cfg w p).2 := by
  rcases readSecret_world cfg w p with h | h <;> rw [h]
  · exact readOnlyExt_refl w
  · exact readOnlyExt_bump_read w p

lemma calculateRollbackOperation_world (cfg : VaultConfig) (w : World)
    (op : TransactionOperation) :
    (calculateRollbackOperation cfg w op).2 = w ∨
    (calculateRollbackOperation cfg w op).2 = (readSecret cfg w op.path).2 := by
  unfold calculateRollbackOperation
  split
  · exact Or.inl rfl
  · split <;> rename_i heq <;>
      exact Or.inr (congrArg Prod.snd heq).symm
  · split <;> rename_i heq <;>
      exact Or.inr (congrArg Prod.snd heq).symm
  · exact Or.inl rfl

lemma calculateRollbackOperation_frame (cfg : VaultConfig) (w : World)
    (op : TransactionOperation) :
    ReadOnlyExt w (calculateRollbackOperation cfg w op).2 := by
  rcases calculateRollbackOperation_world cfg w op with h | h <;> rw [h]
  · exact readOnlyExt_refl w
  · exact readSecret_frame cfg w op.path

/-- The whole planning phase is read-only: it never issues a mutating
store call and leaves the store untouched. -/
lemma prepareTransactionOperations_frame (cfg : VaultConfig) :
    ∀ (ops : List TransactionOperation) (w : World),
    ReadOnlyExt w (prepareTransactionOperations cfg w ops).2 := by
  intro ops
  induction ops with
  | nil => intro w; exact readOnlyExt_refl w
  | cons op rest ih =>
    intro w
    unfold prepareTransactionOperations
    split <;> rename_i heq
    · have hA : ReadOnlyExt w (calculateRollbackOperation cfg w op).2 :=
        calculateRollbackOperation_frame cfg w op
      rw [heq] at hA
      exact hA
    · rename_i rb w₁
      have hA : ReadOnlyExt w (calculateRollbackOperation cfg w op).2 :=
        calculateRollbackOperation_frame cfg w op
      rw [heq] at hA
      split <;> rename_i heq₂ <;>
      · have hB : ReadOnlyExt w₁ (prepareTransactionOperations cfg w₁ rest).2 := ih w₁
        rw [heq₂] at hB
        exact readOnlyExt_trans hA hB

lemma simulateWriteSecret_world (cfg : VaultConfig) (w : World) (p : String)
    (d : Data) : (simulateWriteSecret cfg w p d).2 = (readSecret cfg w p).2 := by
  unfold simulateWriteSecret
  split <;> rename_i heq <;> exact (congrArg Prod.snd heq).symm

lemma simulateDeleteSecret_world (cfg : VaultConfig) (w : World) (p : String) :
    (simulateDeleteSecret cfg w p).2 = (readSecret cfg w p).2 := by
  unfold simulateDeleteSecret
  split <;> rename_i heq <;> exact (congrArg Prod.snd heq).symm

/-- `simulateOperation` either issues no raw call at all or exactly the
raw calls of one `readSecret` of the operation's own path. -/
lemma simulateOperation_world (cfg : VaultConfig) (w : World)
    (op : TransactionOperation) :
    (simulateOperation cfg w op).2 = w ∨
    (simulateOperation cfg w op).2 = (readSecret cfg w op.path).2 := by
  unfold simulateOperation
  split
  · exact Or.inl rfl
  · split
    · exact Or.inl rfl
    · split
      · exact Or.inl rfl
      · split
        · split
          · exact Or.inl rfl
          · exact Or.inr (simulateWriteSecret_world cfg w op.path _)
        · split
          · exact Or.inl rfl
          · exact Or.inr (simulateWriteSecret_world cfg w op.path _)
        · exact Or.inr (simulateDeleteSecret_world cfg w op.path)
        · split <;> rename_i heq <;>
            exact Or.inr (congrArg Prod.snd heq).symm

lemma simulateOperation_frame (cfg : VaultConfig) (w : World)
    (op : TransactionOperation) :
    ReadOnlyExt w (simulateOperation cfg w op).2 := by
  rcases simulateOperation_world cfg w op with h | h <;> rw [h]
  · exact readOnlyExt_refl w
  · exact readSecret_frame cfg w op.path

lemma simulateOperationWithState_world (cfg : VaultConfig) (w : World)
    (op : TransactionOperation) (st : List (String × StateInfo)) :
    (simulateOperationWithState cfg w op st).2 = (simulateOperation cfg w op).2 := by
  unfold simulateOperationWithState
  split
  · rfl
  · repeat' split
    all_goals rfl

lemma dryRunLoop_frame (cfg : VaultConfig) :
    ∀ (ops : List TransactionOperation) (w : World)
      (st : List (String × StateInfo)),
    ReadOnlyExt w (dryRunLoop cfg w ops st).2 := by
  intro ops
  induction ops with
  | nil => intro w st; exact readOnlyExt_refl w
  | cons op rest ih =>
    intro w st
    unfold dryRunLoop
    have hw : ReadOnlyExt w (simulateOperationWithState cfg w op st).2 := by
      rw [simulateOperationWithState_world]
      exact simulateOperation_frame cfg w op
    dsimp only
    split <;> exact readOnlyExt_trans hw (ih _ _)

lemma executeTransactionDryRun_world (cfg : VaultConfig) (w : World)
    (ops : List TransactionOperation) :
    (executeTransactionDryRun cfg w ops).2 = (dryRunLoop cfg w ops []).2 := rfl

/-- `readSecret` issues at most one raw call, a read of its own path. -/
lemma readSecret_reads (cfg : VaultConfig) (w : World) (p : String) :
    ∃ l, (readSecret cfg w p).2.trace = w.trace ++ l ∧ l.length ≤ 1 ∧
      l.all (fun c => c == StoreCall.readC p) = true := by
  rcases readSecret_world cfg w p with h | h <;> rw [h]
  · exact ⟨[], by simp, by simp, rfl⟩
  · exact ⟨[StoreCall.readC p], rfl, by simp, by simp⟩

/-- `simulateOperation` issues at most one raw call, a read of the
operation's own path. -/
lemma simulateOperation_reads (cfg : VaultConfig) (w : World)
    (op : TransactionOperation) :
    ∃ l, (simulateOperation cfg w op).2.trace = w.trace ++ l ∧ l.length ≤ 1 ∧
      l.all (fun c => c == StoreCall.readC op.path) = true := by
  rcases simulateOperation_world cfg w op with h | h <;> rw [h]
  · exact ⟨[], by simp, by simp, rfl⟩
  · exact readSecret_reads cfg w op.path

lemma dryRunLoop_reads (cfg : VaultConfig) :
    ∀ (ops : List TransactionOperation) (w : World)
      (st : List (String × StateInfo)),
    ∃ l, (dryRunLoop cfg w ops st).2.trace = w.trace ++ l ∧
      l.length ≤ ops.length ∧ l.all (fun c => isReadCall c) = true := by
  intro ops
  induction ops with
  | nil => intro w st; exact ⟨[], by simp [dryRunLoop], by simp, rfl⟩
  | cons op rest ih =>
    intro w st
    obtain ⟨l₁, ht₁, hl₁, ha₁⟩ : ∃ l,
        (simulateOperationWithState cfg w op st).2.trace = w.trace ++ l ∧
        l.length ≤ 1 ∧ l.all (fun c => c == StoreCall.readC op.path) = true := by
      rw [simulateOperationWithState_world]
      exact simulateOperation_reads cfg w op
    have hr : l₁.all (fun c => isReadCall c) = true := by
      refine List.all_eq_true.2 (fun c hc => ?_)
      have := List.all_eq_true.1 ha₁ c hc
      have hcc : c = StoreCall.readC op.path := eq_of_beq this
      rw [hcc]; rfl
    unfold dryRunLoop
    dsimp only
    split
    · obtain ⟨l₂, ht₂, hl₂, ha₂⟩ := ih (simulateOperationWithState cfg w op st).2
        (updateSimulatedState st op (simulateOperationWithState cfg w op st).1)
      refine ⟨l₁ ++ l₂, ?_, ?_, ?_⟩
      · rw [ht₂, ht₁, List.append_assoc]
      · simp only [List.length_append, List.length_cons]; omega
      · simp [List.all_append, hr, ha₂]
    · obtain ⟨l₂, ht₂, hl₂, ha₂⟩ := ih (simulateOperationWithState cfg w op st).2 st
      refine ⟨l₁ ++ l₂, ?_, ?_, ?_⟩
      · rw [ht₂, ht₁, List.append_assoc]
      · simp only [List.length_append, List.length_cons]; omega
      · simp [List.all_append, hr, ha₂]

/-! ## C3: dry-run never mutates the store -/

/-- C3: for every list of operations, a dry-run
(`executeTransactionDryRun`, and `simulateOperation` on which it is built)
never invokes a mutating store call: every raw call it issues is a read,
and the remote store state after the call equals the state before it. -/
theorem c3_dry_run_is_readonly :
    (∀ (cfg : VaultConfig) (w : World) (ops : List TransactionOperation),
      ReadOnlyExt w (executeTransactionDryRun cfg w ops).2) ∧
    (∀ (cfg : VaultConfig) (w : World) (op : TransactionOperation),
      ReadOnlyExt w (simulateOperation cfg w op).2) := by
  constructor
  · intro cfg w ops
    rw [executeTransactionDryRun_world]
    exact dryRunLoop_frame cfg ops w []
  · intro cfg w op
    exact simulateOperation_frame cfg w op

/-! ## C6: shape of the planned rollback operations -/

/-- C6: the rollback planner produces, for a `create`, a `delete` rollback
with no payload; for an `update`, an `update` rollback whose
`originalData` is the pre-transaction value read from the store, falling
back to the empty object (not a delete) when the path does not currently
exist; and for a `read`, a `read` rollback that is a no-op when executed. -/
theorem c6_planned_rollback_shapes (cfg : VaultConfig) (w : World)
    (op : TransactionOperation) :
    (op.type = OpType.create →
      calculateRollbackOperation cfg w op =
        (Except.ok ⟨OpType.delete, op.path, none⟩, w)) ∧
    (∀ w₁, op.type = OpType.update →
      readSecret cfg w op.path = (Except.ok none, w₁) →
      calculateRollbackOperation cfg w op =
        (Except.ok ⟨OpType.update, op.path, some []⟩, w₁)) ∧
    (∀ d w₁, op.type = OpType.update →
      readSecret cfg w op.path = (Except.ok (some d), w₁) →
      calculateRollbackOperation cfg w op =
        (Except.ok ⟨OpType.update, op.path, some d⟩, w₁)) ∧
    (op.type = OpType.read →
      calculateRollbackOperation cfg w op =
        (Except.ok ⟨OpType.read, op.path, none⟩, w) ∧
      rollbackStep cfg w ⟨OpType.read, op.path, none⟩ = (none, w)) := by
  refine ⟨?_, ?_, ?_, ?_⟩
  · intro h; unfold calculateRollbackOperation; rw [h]
  · intro w₁ h hr
    unfold calculateRollbackOperation
    rw [h, hr]
    rfl
  · intro d w₁ h hr
    unfold calculateRollbackOperation
    rw [h, hr]
    rfl
  · intro h
    constructor
    · unfold calculateRollbackOperation; rw [h]
    · rfl

/-- Witness for C6 at concrete inputs: planning a create, an update of a
missing path, and a read against the empty store. -/
theorem c6_planned_rollback_shapes_witness :
    calculateRollbackOperation cfgAll emptyWorld ⟨OpType.create, "secret/c", some d1⟩ =
      (Except.ok ⟨OpType.delete, "secret/c", none⟩, emptyWorld) ∧
    calculateRollbackOperation cfgAll emptyWorld ⟨OpType.update, "secret/u", some d1⟩ =
      (Except.ok ⟨OpType.update, "secret/u", some []⟩,
        ⟨[], [], 1, [StoreCall.readC "secret/u"]⟩) ∧
    calculateRollbackOperation cfgAll ⟨[("secret/u", d2)], [], 0, []⟩
        ⟨OpType.update, "secret/u", some d1⟩ =
      (Except.ok ⟨OpType.update, "secret/u", some d2⟩,
        ⟨[("secret/u", d2)], [], 1, [StoreCall.readC "secret/u"]⟩) ∧
    calculateRollbackOperation cfgAll emptyWorld ⟨OpType.read, "secret/r", none⟩ =
      (Except.ok ⟨OpType.read, "secret/r", none⟩, emptyWorld) :=
  ⟨(c6_planned_rollback_shapes cfgAll emptyWorld
      ⟨OpType.create, "secret/c", some d1⟩).1 rfl,
   (c6_planned_rollback_shapes cfgAll emptyWorld
      ⟨OpType.update, "secret/u", some d1⟩).2.1
      ⟨[], [], 1, [StoreCall.readC "secret/u"]⟩ rfl (by decide),
   (c6_planned_rollback_shapes cfgAll ⟨[("secret/u", d2)], [], 0, []⟩
      ⟨OpType.update, "secret/u", some d1⟩).2.2.1 d2
      ⟨[("secret/u", d2)], [], 1, [StoreCall.readC "secret/u"]⟩ rfl (by decide),
   ((c6_planned_rollback_shapes cfgAll emptyWorld
      ⟨OpType.read, "secret/r", none⟩).2.2.2 rfl).1⟩

/-! ## C5: planning happens up front and aborts the batch -/

lemma clientRead_ok (w : World) (p : String) (d : Data) (w₁ : World)
    (h : clientRead w p = (Except.ok d, w₁)) :
    lookupPath w.store p = some d := by
  have h1 : (clientRead w p).1 = Except.ok d := by rw [h]
  unfold clientRead at h1
  dsimp only at h1
  split at h1
  · simp at h1
  · split at h1 <;> rename_i hd
    · rw [hd]; injection h1 with h2; rw [h2]
    · simp at h1

lemma readSecret_ok_some (cfg : VaultConfig) (w : World) (p : String)
    (d : Data) (w₁ : World)
    (h : readSecret cfg w p = (Except.ok (some d), w₁)) :
    lookupPath w.store p = some d := by
  unfold readSecret at h
  split at h
  · simp at h
  · split at h
    · simp at h
    · split at h <;> rename_i heq
      · have h2 : (Except.ok (Option.some _) : Except VErr (Option Data)) =
            Except.ok (some d) := congrArg Prod.fst h
        injection h2 with h3
        injection h3 with h4
        rw [← h4]
        exact clientRead_ok w p _ _ heq
      · simp at h
      · simp at h

/-- Planning the rollback of a delete of a currently-missing path always
fails, whatever else happens (a transport error on the pre-read also
fails). -/
lemma calculateRollbackOperation_delete_missing (cfg : VaultConfig)
    (w : World) (op : TransactionOperation) (hty : op.type = OpType.delete)
    (hmiss : lookupPath w.store op.path = none) :
    ∃ msg w₁, calculateRollbackOperation cfg w op =
      (Except.error (VErr.planningFailure msg), w₁) := by
  unfold calculateRollbackOperation
  rw [hty]
  dsimp only
  split <;> rename_i heq
  · exact absurd (readSecret_ok_some cfg w op.path _ _ heq)
      (by rw [hmiss]; simp)
  · exact ⟨_, _, rfl⟩
  · exact ⟨_, _, rfl⟩

/-- C5: rollback planning for the whole batch runs before execution and is
read-only; if planning fails, `executeTransaction` propagates the error,
no forward operation is attempted against the store, and no mutating call
at all is issued; in particular a `delete` of a path that does not
currently exist makes planning fail. -/
theorem c5_planning_aborts_before_execution (cfg : VaultConfig) (w : World)
    (ops : List TransactionOperation) :
    ReadOnlyExt w (prepareTransactionOperations cfg w ops).2 ∧
    (∀ e w₁, prepareTransactionOperations cfg w ops = (Except.error e, w₁) →
      executeTransaction cfg w ops = (Except.error e, [], w₁) ∧
      ReadOnlyExt w w₁) ∧
    (∀ p dt rest, ops = ⟨OpType.delete, p, dt⟩ :: rest →
      lookupPath w.store p = none →
      ∃ e w₁, prepareTransactionOperations cfg w ops =
        (Except.error e, w₁)) := by
  refine ⟨prepareTransactionOperations_frame cfg ops w, ?_, ?_⟩
  · intro e w₁ h
    constructor
    · unfold executeTransaction
      rw [h]
    · have hA := prepareTransactionOperations_frame cfg ops w
      rw [h] at hA
      exact hA
  · intro p dt rest hops hmiss
    rw [hops]
    obtain ⟨msg, w₁, hc⟩ := calculateRollbackOperation_delete_missing cfg w
      ⟨OpType.delete, p, dt⟩ rfl hmiss
    have hp : prepareTransactionOperations cfg w (⟨OpType.delete, p, dt⟩ :: rest) =
        (Except.error (VErr.planningFailure
          ("Failed to prepare rollback for operation: " ++
            errMsg (VErr.planningFailure msg))), w₁) := by
      unfold prepareTransactionOperations
      rw [hc]
    exact ⟨_, _, hp⟩

/-- Witness for C5: deleting the missing path `secret/gone` as the only
operation of a batch makes the whole call throw a planning failure without
touching the store. -/
theorem c5_planning_aborts_before_execution_witness :
    (∃ e w₁, prepareTransactionOperations cfgAll emptyWorld
      [⟨OpType.delete, "secret/gone", none⟩] = (Except.error e, w₁)) ∧
    executeTransaction cfgAll emptyWorld [⟨OpType.delete, "secret/gone", none⟩] =
      (Except.error (VErr.planningFailure
        ("Failed to prepare rollback for operation: " ++
          "Cannot calculate rollback for delete operation: secret/gone")),
       [], ⟨[], [], 1, [StoreCall.readC "secret/gone"]⟩) := by
  constructor
  · exact (c5_planning_aborts_before_execution cfgAll emptyWorld
      [⟨OpType.delete, "secret/gone", none⟩]).2.2 "secret/gone" none [] rfl rfl
  · exact ((c5_planning_aborts_before_execution cfgAll emptyWorld
      [⟨OpType.delete, "secret/gone", none⟩]).2.1 _
      ⟨[], [], 1, [StoreCall.readC "secret/gone"]⟩ (by decide)).1

/-! ## List utilities -/

lemma enumFrom_cons' (i : Nat) (a : α) (l : List α) :
    List.enumFrom i (a :: l) = (i, a) :: List.enumFrom (i + 1) l := rfl

lemma map_get?' (f : α → β) :
    ∀ (l : List α) (n : Nat), (l.map f).get? n = (l.get? n).map f := by
  intro l
  induction l with
  | nil => intro n; cases n <;> rfl
  | cons a rest ih => intro n; cases n with
    | zero => rfl
    | succ m => exact ih m

lemma nodup_get?_inj :
    ∀ (l : List β), l.Nodup → ∀ i j (b : β),
      l.get? i = some b → l.get? j = some b → i = j := by
  intro l
  induction l with
  | nil => intro _ i j b h; simp at h
  | cons a rest ih =>
    intro hnd i j b hi hj
    obtain ⟨hna, hnd'⟩ := List.nodup_cons.mp hnd
    cases i with
    | zero => cases j with
      | zero => rfl
      | succ m =>
        have ha : a = b := by simpa using hi
        have hb : b ∈ rest := List.get?_mem hj
        exact absurd (ha ▸ hb) hna
    | succ n => cases j with
      | zero =>
        have ha : a = b := by simpa using hj
        have hb : b ∈ rest := List.get?_mem hi
        exact absurd (ha ▸ hb) hna
      | succ m => exact congrArg Nat.succ (ih hnd' n m b hi hj)

lemma mem_enumFrom' :
    ∀ (l : List α) (i : Nat) (e : Nat × α), e ∈ List.enumFrom i l →
      ∃ j, j < l.length ∧ e.1 = i + j ∧ l.get? j = some e.2 := by
  intro l
  induction l with
  | nil => intro i e h; simp [List.enumFrom] at h
  | cons a rest ih =>
    intro i e h
    rw [enumFrom_cons'] at h
    rcases List.mem_cons.mp h with h | h
    · exact ⟨0, by simp, by simp [h], by simp [h]⟩
    · obtain ⟨j, hj, he, hg⟩ := ih (i + 1) e h
      exact ⟨j + 1, by simpa using Nat.succ_lt_succ hj, by omega, hg⟩

/-- Distinct paths at distinct indices, given a duplicate-free path list. -/
lemma nodup_paths_get?_ne (rs : List OpResult) (j j' : Nat) (y z : OpResult)
    (hnd : (rs.map (fun r => r.path)).Nodup) (hy : rs.get? j = some y)
    (hz : rs.get? j' = some z) (hne : j ≠ j') : y.path ≠ z.path := by
  intro hp
  apply hne
  apply nodup_get?_inj _ hnd j j' y.path
  · rw [map_get?', hy]; rfl
  · rw [map_get?', hz, hp]; rfl

/-! ## Phase 1 (forward execution) characterization -/

lemma runForward_allOk (cfg : VaultConfig) :
    ∀ (iops : List InternalOp) (w : World) (i : Nat) (R : List OpResult)
      (C : List (Nat × InternalOp)) (w' : World),
    runForward cfg w iops i = FwdOut.allOk R C w' →
    R.map (fun r => r.success) = List.replicate iops.length true ∧
    R.map (fun r => r.path) = iops.map (fun o => o.forward.path) ∧
    R.map (fun r => r.rollbackExecuted) = List.replicate iops.length none ∧
    C = iops.enumFrom i := by
  intro iops
  induction iops with
  | nil =>
    intro w i R C w' h
    unfold runForward at h
    cases h
    exact ⟨rfl, rfl, rfl, rfl⟩
  | cons iop rest ih =>
    intro w i R C w' h
    unfold runForward at h
    split at h
    · exact FwdOut.noConfusion h
    · split at h <;> rename_i hstep
      · split at h <;> rename_i hrec
        · cases h
          obtain ⟨h1, h2, h3, h4⟩ := ih _ _ _ _ _ hrec
          exact ⟨by simp [h1, List.replicate_succ],
                 by simp [h2],
                 by simp [h3, List.replicate_succ],
                 by simp [h4, enumFrom_cons']⟩
        · exact FwdOut.noConfusion h
        · exact FwdOut.noConfusion h
      · exact FwdOut.noConfusion h

lemma runForward_failedOp (cfg : VaultConfig) :
    ∀ (iops : List InternalOp) (w : World) (i : Nat) (k : Nat)
      (R : List OpResult) (C : List (Nat × InternalOp)) (w' : World),
    runForward cfg w iops i = FwdOut.failedOp k R C w' →
    ∃ pre o post, iops = pre ++ o :: post ∧ k = i + pre.length ∧
      C = pre.enumFrom i ∧
      R.map (fun r => r.success) = List.replicate pre.length true ++ [false] ∧
      R.map (fun r => r.path) =
        pre.map (fun o => o.forward.path) ++ [o.forward.path] ∧
      R.map (fun r => r.rollbackExecuted) =
        List.replicate pre.length none ++ [none] := by
  intro iops
  induction iops with
  | nil =>
    intro w i k R C w' h
    unfold runForward at h
    exact FwdOut.noConfusion h
  | cons iop rest ih =>
    intro w i k R C w' h
    unfold runForward at h
    split at h
    · exact FwdOut.noConfusion h
    · split at h <;> rename_i hstep
      · split at h <;> rename_i hrec
        · exact FwdOut.noConfusion h
        · cases h
          obtain ⟨pre, o, post, hio, hk, hC, h1, h2, h3⟩ := ih _ _ _ _ _ _ hrec
          refine ⟨iop :: pre, o, post, by rw [hio]; rfl,
            by rw [hk]; simp only [List.length_cons]; omega,
            by rw [hC, enumFrom_cons'], ?_, ?_, ?_⟩
          · simp [h1, List.replicate_succ]
          · simp [h2]
          · simp [h3, List.replicate_succ]
        · exact FwdOut.noConfusion h
      · cases h
        exact ⟨[], iop, rest, rfl, by simp, rfl, rfl, rfl, rfl⟩

lemma runForward_fatal (cfg : VaultConfig) :
    ∀ (iops : List InternalOp) (w : World) (i : Nat) (k : Nat)
      (R : List OpResult) (C : List (Nat × InternalOp)) (w' : World),
    runForward cfg w iops i = FwdOut.fatal k R C w' →
    ∃ pre o post, iops = pre ++ o :: post ∧ k = i + pre.length ∧
      isPathAllowed cfg o.forward.path = false ∧
      C = pre.enumFrom i ∧
      R.map (fun r => r.success) = List.replicate pre.length true ∧
      R.map (fun r => r.path) = pre.map (fun o => o.forward.path) ∧
      R.map (fun r => r.rollbackExecuted) = List.replicate pre.length none := by
  intro iops
  induction iops with
  | nil =>
    intro w i k R C w' h
    unfold runForward at h
    exact FwdOut.noConfusion h
  | cons iop rest ih =>
    intro w i k R C w' h
    unfold runForward at h
    split at h <;> rename_i hcond
    · cases h
      refine ⟨[], iop, rest, rfl, by simp, ?_, rfl, rfl, rfl, rfl⟩
      simpa using hcond
    · split at h <;> rename_i hstep
      · split at h <;> rename_i hrec
        · exact FwdOut.noConfusion h
        · exact FwdOut.noConfusion h
        · cases h
          obtain ⟨pre, o, post, hio, hk, hpa, hC, h1, h2, h3⟩ := ih _ _ _ _ _ _ hrec
          refine ⟨iop :: pre, o, post, by rw [hio]; rfl,
            by rw [hk]; simp only [List.length_cons]; omega, hpa,
            by rw [hC, enumFrom_cons'], ?_, ?_, ?_⟩
          · simp [h1, List.replicate_succ]
          · simp [h2]
          · simp [h3, List.replicate_succ]
      · exact FwdOut.noConfusion h

/-! ## Rollback marking and loop characterization -/

lemma applyMark_path (r : OpResult) (e : Option String) :
    (applyMark r e).path = r.path := by cases e <;> rfl

lemma applyMark_success (r : OpResult) (e : Option String) :
    (applyMark r e).success = r.success := by cases e <;> rfl

lemma markResults_length :
    ∀ (rs : List OpResult) (p : String) (e : Option String),
    (markResults rs p e).length = rs.length := by
  intro rs p e
  induction rs with
  | nil => rfl
  | cons r rest ih =>
    unfold markResults
    split
    · simp
    · simp [ih]

lemma markResults_map_path :
    ∀ (rs : List OpResult) (p : String) (e : Option String),
    (markResults rs p e).map (fun r => r.path) = rs.map (fun r => r.path) := by
  intro rs p e
  induction rs with
  | nil => rfl
  | cons r rest ih =>
    unfold markResults
    split
    · simp [applyMark_path]
    · simp [ih]

lemma markResults_map_success :
    ∀ (rs : List OpResult) (p : String) (e : Option String),
    (markResults rs p e).map (fun r => r.success) =
      rs.map (fun r => r.success) := by
  intro rs p e
  induction rs with
  | nil => rfl
  | cons r rest ih =>
    unfold markResults
    split
    · simp [applyMark_success]
    · simp [ih]

lemma markResults_get?_of_path_ne :
    ∀ (rs : List OpResult) (p : String) (e : Option String) (j : Nat)
      (y : OpResult),
    rs.get? j = some y → y.path ≠ p → (markResults rs p e).get? j = some y := by
  intro rs
  induction rs with
  | nil => intro p e j y h _; simp at h
  | cons r rest ih =>
    intro p e j y h hne
    unfold markResults
    split <;> rename_i hr
    · cases j with
      | zero =>
        have h1 : r = y := by simpa using h
        exact absurd (h1 ▸ eq_of_beq hr) hne
      | succ n => exact h
    · cases j with
      | zero => exact h
      | succ n => exact ih p e n y h hne

lemma markResults_get?_self :
    ∀ (rs : List OpResult) (p : String) (e : Option String) (j : Nat)
      (y : OpResult),
    (rs.map (fun r => r.path)).Nodup → rs.get? j = some y → y.path = p →
    (markResults rs p e).get? j = some (applyMark y e) := by
  intro rs
  induction rs with
  | nil => intro p e j y _ h _; simp at h
  | cons r rest ih =>
    intro p e j y hnd h hy
    unfold markResults
    split <;> rename_i hr
    · cases j with
      | zero =>
        have h1 : r = y := by simpa using h
        rw [h1]
        rfl
      | succ n =>
        have hrp : r.path = p := eq_of_beq hr
        have hmem : y ∈ rest := List.get?_mem h
        have hpmem : y.path ∈ rest.map (fun r => r.path) :=
          List.mem_map_of_mem _ hmem
        rw [hy, ← hrp] at hpmem
        exact absurd hpmem (List.nodup_cons.mp hnd).1
    · cases j with
      | zero =>
        have h1 : r = y := by simpa using h
        rw [h1, hy] at hr
        simp at hr
      | succ n => exact ih p e n y (List.nodup_cons.mp hnd).2 h hy

lemma rollbackLoop_length (cfg : VaultConfig) :
    ∀ (entries : List (Nat × InternalOp)) (w : World) (results : List OpResult),
    ((rollbackLoop cfg w entries results).1).length = results.length := by
  intro entries
  induction entries with
  | nil => intro w results; rfl
  | cons e rest ih =>
    intro w results
    obtain ⟨i, iop⟩ := e
    unfold rollbackLoop
    dsimp only
    rw [ih, markResults_length]

lemma rollbackLoop_map_success (cfg : VaultConfig) :
    ∀ (entries : List (Nat × InternalOp)) (w : World) (results : List OpResult),
    ((rollbackLoop cfg w entries results).1).map (fun r => r.success) =
      results.map (fun r => r.success) := by
  intro entries
  induction entries with
  | nil => intro w results; rfl
  | cons e rest ih =>
    intro w results
    obtain ⟨i, iop⟩ := e
    unfold rollbackLoop
    dsimp only
    rw [ih, markResults_map_success]

lemma rollbackLoop_map_path (cfg : VaultConfig) :
    ∀ (entries : List (Nat × InternalOp)) (w : World) (results : List OpResult),
    ((rollbackLoop cfg w entries results).1).map (fun r => r.path) =
      results.map (fun r => r.path) := by
  intro entries
  induction entries with
  | nil => intro w results; rfl
  | cons e rest ih =>
    intro w results
    obtain ⟨i, iop⟩ := e
    unfold rollbackLoop
    dsimp only
    rw [ih, markResults_map_path]

/-- The ghost rollback log records exactly the processed entries, in
processing order, whatever the outcomes of the individual steps. -/
lemma rollbackLoop_log (cfg : VaultConfig) :
    ∀ (entries : List (Nat × InternalOp)) (w : World) (results : List OpResult),
    ((rollbackLoop cfg w entries results).2.1).map (fun r => (r.index, r.entry)) =
      entries := by
  intro entries
  induction entries with
  | nil => intro w results; rfl
  | cons e rest ih =>
    intro w results
    obtain ⟨i, iop⟩ := e
    unfold rollbackLoop
    dsimp only
    rw [List.map_cons, ih]

lemma rollbackLoop_untouched (cfg : VaultConfig) :
    ∀ (entries : List (Nat × InternalOp)) (w : World) (results : List OpResult)
      (j : Nat) (y : OpResult),
    results.get? j = some y →
    (∀ e ∈ entries, e.2.forward.path ≠ y.path) →
    ((rollbackLoop cfg w entries results).1).get? j = some y := by
  intro entries
  induction entries with
  | nil => intro w results j y h _; exact h
  | cons e rest ih =>
    intro w results j y h hne
    obtain ⟨i, iop⟩ := e
    unfold rollbackLoop
    dsimp only
    refine ih _ _ j y ?_ (fun e he => hne e (List.mem_cons_of_mem _ he))
    exact markResults_get?_of_path_ne _ _ _ j y h
      (fun hp => hne (i, iop) (List.mem_cons_self _ _) hp.symm)

/-- With duplicate-free result paths, every processed rollback step marks
its own entry: the final results list carries, at the step's index, the
original entry updated by `applyMark` with the step's outcome. -/
lemma rollbackLoop_marks (cfg : VaultConfig) :
    ∀ (entries : List (Nat × InternalOp)) (w : World) (results : List OpResult),
    (results.map (fun r => r.path)).Nodup →
    (∀ e ∈ entries, ∃ y, results.get? e.1 = some y ∧
      y.path = e.2.forward.path) →
    ((entries.map Prod.fst).Nodup) →
    ∀ r ∈ (rollbackLoop cfg w entries results).2.1,
      ∃ y, y.path = r.entry.forward.path ∧
        ((rollbackLoop cfg w entries results).1).get? r.index =
          some (applyMark y r.err) := by
  intro entries
  induction entries with
  | nil => intro w results _ _ _ r hr; simp [rollbackLoop] at hr
  | cons e rest ih =>
    intro w results hnd halign hidx r hr
    obtain ⟨i, iop⟩ := e
    obtain ⟨y₀, hy₀, hy₀p⟩ := halign (i, iop) (List.mem_cons_self _ _)
    have hidx' : (i :: rest.map Prod.fst).Nodup := hidx
    have hidx0 : i ∉ rest.map Prod.fst := (List.nodup_cons.mp hidx').1
    have hotherne : ∀ e' ∈ rest, e'.2.forward.path ≠ y₀.path := by
      intro e' he'
      obtain ⟨z, hz, hzp⟩ := halign e' (List.mem_cons_of_mem _ he')
      have hne : e'.1 ≠ i := by
        intro hEq
        exact hidx0 (hEq ▸ List.mem_map_of_mem Prod.fst he')
      rw [← hzp]
      exact nodup_paths_get?_ne results e'.1 i z y₀ hnd hz hy₀ hne
    have hM : ∀ e' ∈ rest, ∃ z,
        (markResults results iop.forward.path
          (rollbackStep cfg w iop.rollback).1).get? e'.1 = some z ∧
        z.path = e'.2.forward.path := by
      intro e' he'
      obtain ⟨z, hz, hzp⟩ := halign e' (List.mem_cons_of_mem _ he')
      refine ⟨z, ?_, hzp⟩
      refine markResults_get?_of_path_ne _ _ _ _ _ hz ?_
      rw [hzp, ← hy₀p]
      exact hotherne e' he'
    have hMnd : ((markResults results iop.forward.path
        (rollbackStep cfg w iop.rollback).1).map (fun r => r.path)).Nodup := by
      rw [markResults_map_path]; exact hnd
    rw [show rollbackLoop cfg w ((i, iop) :: rest) results =
        ((rollbackLoop cfg (rollbackStep cfg w iop.rollback).2 rest
            (markResults results iop.forward.path
              (rollbackStep cfg w iop.rollback).1)).1,
         ⟨i, iop, (rollbackStep cfg w iop.rollback).1⟩ ::
           (rollbackLoop cfg (rollbackStep cfg w iop.rollback).2 rest
            (markResults results iop.forward.path
              (rollbackStep cfg w iop.rollback).1)).2.1,
         (rollbackLoop cfg (rollbackStep cfg w iop.rollback).2 rest
            (markResults results iop.forward.path
              (rollbackStep cfg w iop.rollback).1)).2.2) from rfl] at hr ⊢
    rcases List.mem_cons.mp hr with hr | hr
    · subst hr
      refine ⟨y₀, hy₀p, ?_⟩
      refine rollbackLoop_untouched cfg rest _ _ i (applyMark y₀ _) ?_ ?_
      · exact markResults_get?_self results iop.forward.path _ i y₀ hnd hy₀ hy₀p
      · intro e' he'
        rw [applyMark_path]
        exact hotherne e' he'
    · exact ih _ _ hMnd hM (List.nodup_cons.mp hidx').2 r hr

lemma get?_append_left' :
    ∀ (l₁ l₂ : List α) (n : Nat), n < l₁.length →
      (l₁ ++ l₂).get? n = l₁.get? n := by
  intro l₁
  induction l₁ with
  | nil => intro l₂ n h; simp at h
  | cons a rest ih =>
    intro l₂ n h
    cases n with
    | zero => rfl
    | succ m => exact ih l₂ m (by simpa using Nat.lt_of_succ_lt_succ h)

lemma prepareTransactionOperations_ok_forwards (cfg : VaultConfig) :
    ∀ (ops : List TransactionOperation) (w : World) (iops : List InternalOp)
      (w₁ : World),
    prepareTransactionOperations cfg w ops = (Except.ok iops, w₁) →
    iops.map (fun o => o.forward) = ops := by
  intro ops
  induction ops with
  | nil =>
    intro w iops w₁ h
    unfold prepareTransactionOperations at h
    cases h
    rfl
  | cons op rest ih =>
    intro w iops w₁ h
    unfold prepareTransactionOperations at h
    split at h <;> rename_i heq
    · simp at h
    · split at h <;> rename_i heq₂
      · cases h
        simp [ih _ _ _ heq₂]
      · simp at h

/-- Alignment of the committed stack with the pre-rollback results: each
committed entry's index points, in the results list, at an entry with the
operation's forward path.  Derived from the `runForward`
characterizations. -/
lemma completed_aligned (pre : List InternalOp) (tail : List String)
    (R : List OpResult)
    (hmap : R.map (fun r => r.path) =
      pre.map (fun o => o.forward.path) ++ tail) :
    ∀ e ∈ (pre.enumFrom 0).reverse, ∃ y, R.get? e.1 = some y ∧
      y.path = e.2.forward.path := by
  intro e he
  rw [List.mem_reverse] at he
  obtain ⟨j, hj, he1, hg⟩ := mem_enumFrom' pre 0 e he
  have h1 : (R.map (fun r => r.path)).get? j =
      some (e.2.forward.path) := by
    rw [hmap, get?_append_left' _ _ j (by simpa using hj), map_get?', hg]
    rfl
  rw [map_get?'] at h1
  obtain ⟨y, hy, hyp⟩ := Option.map_eq_some'.mp h1
  exact ⟨y, by rw [he1, Nat.zero_add]; exact hy, hyp⟩

/-! ## C1: success iff every forward operation succeeded; rollback covers
exactly the committed prefix -/

/-- C1: in commit mode, a returned `TransactionResult` has
`success = true` iff every forward operation was attempted and succeeded;
on failure, rollback is attempted for exactly the prefix of operations
that had succeeded before the first failure (indices `0..k-1`, where the
first `k` per-operation results are the successes) and for no other
operation. -/
theorem c1_success_iff_all_forward_succeed (cfg : VaultConfig) (w : World)
    (ops : List TransactionOperation) (res : TransactionResult)
    (lg : List RbRecord) (w₂ : World)
    (h : executeTransaction cfg w ops = (Except.ok res, lg, w₂)) :
    res.summary.total = ops.length ∧
    (res.success = true ↔
      (res.results.length = res.summary.total ∧
       res.results.all (fun r => r.success) = true)) ∧
    (res.success = false →
      ∃ k, k < res.summary.total ∧ k = res.summary.rolledBack ∧
        lg.map (fun r => r.index) = (List.range k).reverse ∧
        (res.results.map (fun r => r.success) = List.replicate k true ∨
         res.results.map (fun r => r.success) =
           List.replicate k true ++ [false])) := by
  unfold executeTransaction at h
  split at h <;> rename_i hprep
  · simp at h
  · rename_i iops w₁
    dsimp only at h
    have hlen : iops.length = ops.length := by
      have := prepareTransactionOperations_ok_forwards cfg ops w iops w₁ hprep
      rw [← this, List.length_map]
    unfold executeTransactionInternal at h
    split at h <;> rename_i hrun
    · rename_i R C w'
      cases h
      obtain ⟨h1, h2, h3, h4⟩ := runForward_allOk cfg iops w₁ 0 R C w' hrun
      refine ⟨hlen, ?_, ?_⟩
      · simp only [true_iff]
        constructor
        · have := congrArg List.length h1
          simpa using this
        · refine List.all_eq_true.2 (fun r hr => ?_)
          have : r.success ∈ R.map (fun r => r.success) :=
            List.mem_map_of_mem _ hr
          rw [h1] at this
          exact List.eq_of_mem_replicate this
      · intro hcontra; simp at hcontra
    · rename_i k R C w'
      cases h
      unfold executeRollback
      obtain ⟨pre, o, post, hio, hk, hC, h1, h2, h3⟩ :=
        runForward_failedOp cfg iops w₁ 0 k R C w' hrun
      have hClen : C.length = pre.length := by rw [hC, List.enumFrom_length]
      have hsucc : ((rollbackLoop cfg w' C.reverse R).1).map
          (fun r => r.success) = List.replicate pre.length true ++ [false] := by
        rw [rollbackLoop_map_success, h1]
      refine ⟨hlen, ?_, ?_⟩
      · constructor
        · intro hcontra; simp at hcontra
        · intro ⟨_, hall⟩
          have hfmem : false ∈ ((rollbackLoop cfg w' C.reverse R).1).map
              (fun r => r.success) := by
            rw [hsucc]; simp
          obtain ⟨x, hx, hxf⟩ := List.mem_map.mp hfmem
          have := List.all_eq_true.1 hall x hx
          rw [this] at hxf
          simp at hxf
      · intro _
        refine ⟨pre.length, ?_, by simp [hClen], ?_, Or.inr hsucc⟩
        · show pre.length < iops.length
          rw [hio]
          simp only [List.length_append, List.length_cons]
          omega
        · have hlog := rollbackLoop_log cfg C.reverse w' R
          have := congrArg (List.map Prod.fst) hlog
          rw [List.map_map] at this
          have hidxmap : ((rollbackLoop cfg w' C.reverse R).2.1).map
              (fun r => r.index) = (C.map Prod.fst).reverse := by
            rw [← List.map_reverse]
            exact this
          rw [hidxmap, hC, List.enumFrom_map_fst, ← List.range_eq_range']
    · rename_i k R C w'
      cases h
      unfold executeRollback
      obtain ⟨pre, o, post, hio, hk, hpa, hC, h1, h2, h3⟩ :=
        runForward_fatal cfg iops w₁ 0 k R C w' hrun
      have hClen : C.length = pre.length := by rw [hC, List.enumFrom_length]
      have hsucc : ((rollbackLoop cfg w' C.reverse R).1).map
          (fun r => r.success) = List.replicate pre.length true := by
        rw [rollbackLoop_map_success, h1]
      have hRlen : ((rollbackLoop cfg w' C.reverse R).1).length = pre.length := by
        have := congrArg List.length hsucc
        simpa using this
      refine ⟨hlen, ?_, ?_⟩
      · constructor
        · intro hcontra; simp at hcontra
        · intro ⟨hlenEq, _⟩
          rw [hRlen] at hlenEq
          rw [hio] at hlenEq
          simp only [List.length_append, List.length_cons] at hlenEq
          omega
      · intro _
        refine ⟨pre.length, ?_, by simp [hClen], ?_, Or.inl hsucc⟩
        · show pre.length < iops.length
          rw [hio]
          simp only [List.length_append, List.length_cons]
          omega
        · have hlog := rollbackLoop_log cfg C.reverse w' R
          have := congrArg (List.map Prod.fst) hlog
          rw [List.map_map] at this
          have hidxmap : ((rollbackLoop cfg w' C.reverse R).2.1).map
              (fun r => r.index) = (C.map Prod.fst).reverse := by
            rw [← List.map_reverse]
            exact this
          rw [hidxmap, hC, List.enumFrom_map_fst, ← List.range_eq_range']

/-- Packaged prerequisites of `rollbackLoop_marks` for a committed stack
produced by `runForward` (indices `0..pre.length-1`, duplicate-free result
paths). -/
lemma internal_marks (cfg : VaultConfig) (w' : World) (pre : List InternalOp)
    (tail : List String) (R : List OpResult) (C : List (Nat × InternalOp))
    (hC : C = pre.enumFrom 0)
    (hmap : R.map (fun r => r.path) =
      pre.map (fun o => o.forward.path) ++ tail)
    (hnd : (R.map (fun r => r.path)).Nodup) :
    ∀ r ∈ (rollbackLoop cfg w' C.reverse R).2.1,
      ∃ y, y.path = r.entry.forward.path ∧
        ((rollbackLoop cfg w' C.reverse R).1).get? r.index =
          some (applyMark y r.err) := by
  apply rollbackLoop_marks
  · exact hnd
  · rw [hC]; exact completed_aligned pre tail R hmap
  · rw [hC, List.map_reverse, List.enumFrom_map_fst]
    exact List.nodup_reverse.mpr (List.nodup_range' ..)

/-- The two duplicate-free-path facts needed about the pre-rollback
results, extracted from duplicate-freeness of the batch's forward paths. -/
lemma nodup_prefix_paths (pre : List InternalOp) (o : InternalOp)
    (post : List InternalOp)
    (hnd : ((pre ++ o :: post).map (fun o => o.forward.path)).Nodup) :
    (pre.map (fun o => o.forward.path) ++ [o.forward.path]).Nodup ∧
    (pre.map (fun o => o.forward.path)).Nodup := by
  simp only [List.map_append, List.map_cons] at hnd
  have hsub1 : List.Sublist (pre.map (fun o => o.forward.path) ++ [o.forward.path])
      (pre.map (fun o => o.forward.path) ++
        o.forward.path :: post.map (fun o => o.forward.path)) :=
    List.Sublist.append (List.Sublist.refl _)
      (List.Sublist.cons₂ _ (List.nil_sublist _))
  have hsub2 : List.Sublist (pre.map (fun o => o.forward.path))
      (pre.map (fun o => o.forward.path) ++
        o.forward.path :: post.map (fun o => o.forward.path)) :=
    List.sublist_append_left _ _
  exact ⟨hsub1.nodup hnd, hsub2.nodup hnd⟩

/-- From a marks-style conclusion, the concrete recording facts C2 and C10
state about one processed rollback step. -/
lemma applyMark_recording (y : OpResult) (e : Option String) :
    (applyMark y e).rollbackExecuted = some e.isNone ∧
    (∀ m, e = some m →
      ∃ s, (applyMark y e).error = some (s ++ "; Rollback failed: " ++ m)) := by
  cases e with
  | none =>
    refine ⟨rfl, ?_⟩
    intro m hm; cases hm
  | some m =>
    refine ⟨rfl, ?_⟩
    intro m' hm'
    cases hm'
    exact ⟨y.error.getD "undefined", rfl⟩

/-! ## C2 (amended): LIFO rollback order, full coverage, path-keyed
recording -/

/-- C2 (amended): when a transaction fails after committing `k`
operations, all `k` rollback steps are attempted in the exact reverse of
forward commit order, independently of whether individual steps succeed
(the log equation holds for every world, hence every pattern of rollback
failures); on success there is no rollback.  A step's outcome is recorded
by path lookup, which lands on the step's own entry whenever the batch's
forward paths are distinct: then its entry gets
`rollbackExecuted = isNone of the step error`, with the rollback error
appended to the entry's error string on failure. -/
theorem c2_lifo_rollback_and_recording (cfg : VaultConfig) (w : World)
    (iops : List InternalOp) (res : TransactionResult) (lg : List RbRecord)
    (w₂ : World)
    (h : executeTransactionInternal cfg w iops = (res, lg, w₂)) :
    (res.success = false →
      lg.map (fun r => (r.index, r.entry)) =
        ((iops.take res.summary.rolledBack).enumFrom 0).reverse) ∧
    (res.success = true → lg = []) ∧
    ((iops.map (fun o => o.forward.path)).Nodup →
      ∀ r ∈ lg, ∃ x, res.results.get? r.index = some x ∧
        x.rollbackExecuted = some r.err.isNone ∧
        ∀ m, r.err = some m →
          ∃ s, x.error = some (s ++ "; Rollback failed: " ++ m)) := by
  unfold executeTransactionInternal at h
  split at h <;> rename_i hrun
  · cases h
    refine ⟨?_, ?_, ?_⟩
    · intro hcontra; simp at hcontra
    · intro _; rfl
    · intro _ r hr; simp at hr
  · rename_i k R C w'
    cases h
    unfold executeRollback
    obtain ⟨pre, o, post, hio, hk, hC, h1, h2, h3⟩ :=
      runForward_failedOp cfg iops w 0 k R C w' hrun
    have hClen : C.length = pre.length := by rw [hC, List.enumFrom_length]
    refine ⟨?_, ?_, ?_⟩
    · intro _
      show ((rollbackLoop cfg w' C.reverse R).2.1).map
          (fun r => (r.index, r.entry)) = _
      rw [rollbackLoop_log]
      have : iops.take C.length = pre := by
        rw [hClen, hio, List.take_left]
      rw [this, hC]
    · intro hcontra; simp at hcontra
    · intro hnd r hr
      rw [hio] at hnd
      obtain ⟨hnd1, _⟩ := nodup_prefix_paths pre o post hnd
      have hndR : (R.map (fun r => r.path)).Nodup := by
        rw [h2]; exact hnd1
      obtain ⟨y, hyp, hget⟩ := internal_marks cfg w' pre [o.forward.path] R C
        hC h2 hndR r hr
      obtain ⟨hrbe, herr⟩ := applyMark_recording y r.err
      exact ⟨applyMark y r.err, hget, hrbe, herr⟩
  · rename_i k R C w'
    cases h
    unfold executeRollback
    obtain ⟨pre, o, post, hio, hk, hpa, hC, h1, h2, h3⟩ :=
      runForward_fatal cfg iops w 0 k R C w' hrun
    have hClen : C.length = pre.length := by rw [hC, List.enumFrom_length]
    refine ⟨?_, ?_, ?_⟩
    · intro _
      show ((rollbackLoop cfg w' C.reverse R).2.1).map
          (fun r => (r.index, r.entry)) = _
      rw [rollbackLoop_log]
      have : iops.take C.length = pre := by
        rw [hClen, hio, List.take_left]
      rw [this, hC]
    · intro hcontra; simp at hcontra
    · intro hnd r hr
      rw [hio] at hnd
      obtain ⟨_, hnd2⟩ := nodup_prefix_paths pre o post hnd
      have hndR : (R.map (fun r => r.path)).Nodup := by
        rw [h2]; exact hnd2
      obtain ⟨y, hyp, hget⟩ := internal_marks cfg w' pre [] R C
        hC (by rw [h2, List.append_nil]) hndR r hr
      obtain ⟨hrbe, herr⟩ := applyMark_recording y r.err
      exact ⟨applyMark y r.err, hget, hrbe, herr⟩

/-! ## C10 (amended): rollbackResults is the truthy-rollbackExecuted
filter -/

/-- C10 (amended): in every transaction result, `rollbackResults` contains
exactly the (final) results entries whose `rollbackExecuted` is `true`;
when the batch's forward paths are distinct, a committed operation whose
rollback step threw is marked `rollbackExecuted = false` on its own entry,
which is therefore omitted from `rollbackResults`. -/
theorem c10_rollbackResults_are_marked_entries (cfg : VaultConfig)
    (w : World) (iops : List InternalOp) (res : TransactionResult)
    (lg : List RbRecord) (w₂ : World)
    (h : executeTransactionInternal cfg w iops = (res, lg, w₂)) :
    (∀ x, x ∈ res.rollbackResults ↔
      (x ∈ res.results ∧ x.rollbackExecuted = some true)) ∧
    ((iops.map (fun o => o.forward.path)).Nodup →
      ∀ r ∈ lg, ∀ m, r.err = some m →
        ∃ x, res.results.get? r.index = some x ∧
          x.rollbackExecuted = some false ∧ x ∉ res.rollbackResults) := by
  unfold executeTransactionInternal at h
  split at h <;> rename_i hrun
  · cases h
    obtain ⟨h1, h2, h3, h4⟩ := runForward_allOk _ _ _ _ _ _ _ hrun
    refine ⟨?_, ?_⟩
    · intro x
      simp only [List.not_mem_nil, false_iff]
      intro ⟨hx, hrbe⟩
      have hmem := List.mem_map_of_mem (fun r => r.rollbackExecuted) hx
      dsimp only at hmem
      rw [h3] at hmem
      have := List.eq_of_mem_replicate hmem
      rw [hrbe] at this
      cases this
    · intro _ r hr; simp at hr
  · rename_i k R C w'
    cases h
    unfold executeRollback
    obtain ⟨pre, o, post, hio, hk, hC, h1, h2, h3⟩ :=
      runForward_failedOp cfg iops w 0 k R C w' hrun
    refine ⟨?_, ?_⟩
    · intro x
      simp only [List.mem_filter, beq_iff_eq]
    · intro hnd r hr m hm
      rw [hio] at hnd
      obtain ⟨hnd1, _⟩ := nodup_prefix_paths pre o post hnd
      have hndR : (R.map (fun r => r.path)).Nodup := by
        rw [h2]; exact hnd1
      obtain ⟨y, hyp, hget⟩ := internal_marks cfg w' pre [o.forward.path] R C
        hC h2 hndR r hr
      rw [hm] at hget
      refine ⟨applyMark y (some m), hget, rfl, ?_⟩
      intro hmem
      have := (List.mem_filter.mp hmem).2
      simp [applyMark] at this
  · rename_i k R C w'
    cases h
    unfold executeRollback
    obtain ⟨pre, o, post, hio, hk, hpa, hC, h1, h2, h3⟩ :=
      runForward_fatal cfg iops w 0 k R C w' hrun
    refine ⟨?_, ?_⟩
    · intro x
      simp only [List.mem_filter, beq_iff_eq]
    · intro hnd r hr m hm
      rw [hio] at hnd
      obtain ⟨_, hnd2⟩ := nodup_prefix_paths pre o post hnd
      have hndR : (R.map (fun r => r.path)).Nodup := by
        rw [h2]; exact hnd2
      obtain ⟨y, hyp, hget⟩ := internal_marks cfg w' pre [] R C
        hC (by rw [h2, List.append_nil]) hndR r hr
      rw [hm] at hget
      refine ⟨applyMark y (some m), hget, rfl, ?_⟩
      intro hmem
      have := (List.mem_filter.mp hmem).2
      simp [applyMark] at this

/-- Witness for C1 at a concrete failing transaction: the second operation
targets a disallowed path, so exactly the first (successful) operation is
rolled back. -/
theorem c1_success_iff_all_forward_succeed_witness :
    ∃ k, k < (txOf (executeTransaction cfgAll emptyWorld
        opsAllowedThenDenied).1).summary.total ∧
      k = (txOf (executeTransaction cfgAll emptyWorld
        opsAllowedThenDenied).1).summary.rolledBack ∧
      ((executeTransaction cfgAll emptyWorld opsAllowedThenDenied).2.1).map
          (fun r => r.index) = (List.range k).reverse ∧
      ((txOf (executeTransaction cfgAll emptyWorld
          opsAllowedThenDenied).1).results.map (fun r => r.success) =
            List.replicate k true ∨
       (txOf (executeTransaction cfgAll emptyWorld
          opsAllowedThenDenied).1).results.map (fun r => r.success) =
            List.replicate k true ++ [false]) := by
  have h := c1_success_iff_all_forward_succeed cfgAll emptyWorld
    opsAllowedThenDenied
    (txOf (executeTransaction cfgAll emptyWorld opsAllowedThenDenied).1)
    (executeTransaction cfgAll emptyWorld opsAllowedThenDenied).2.1
    (executeTransaction cfgAll emptyWorld opsAllowedThenDenied).2.2
    (by decide)
  exact h.2.2 (by decide)

/-- Witness for C2 at a concrete failing transaction with distinct paths
and a failing middle rollback step: the log lists the two committed entries
in reverse commit order, and the failed step is recorded on its own
entry. -/
theorem c2_lifo_rollback_and_recording_witness :
    ((executeTransactionInternal cfgAll wFail23 iopsDistinct).2.1).map
        (fun r => (r.index, r.entry)) =
      ((iopsDistinct.take (executeTransactionInternal cfgAll wFail23
          iopsDistinct).1.summary.rolledBack).enumFrom 0).reverse ∧
    (∃ x, (executeTransactionInternal cfgAll wFail23
        iopsDistinct).1.results.get? 1 = some x ∧
      x.rollbackExecuted = some false ∧
      ∃ s, x.error = some (s ++ "; Rollback failed: " ++
        errMsg (VErr.transport "secret/b"))) := by
  have h := c2_lifo_rollback_and_recording cfgAll wFail23 iopsDistinct
    (executeTransactionInternal cfgAll wFail23 iopsDistinct).1
    (executeTransactionInternal cfgAll wFail23 iopsDistinct).2.1
    (executeTransactionInternal cfgAll wFail23 iopsDistinct).2.2 rfl
  refine ⟨h.1 (by decide), ?_⟩
  obtain ⟨x, hx, hrbe, herr⟩ := h.2.2 (by decide)
    ⟨1, iopsDistinct.get ⟨1, by decide⟩, some (errMsg (VErr.transport "secret/b"))⟩
    (by decide)
  exact ⟨x, hx, by simpa using hrbe, herr _ rfl⟩

/-- Counterexample to C2 as stated: in a failing transaction whose first
two operations share a path, the rollback step of committed operation 1
throws (the log records a step error at index 1), yet the per-operation
entry at index 1 is left unmarked — `rollbackExecuted` is `none`, not
`false`, and no error is appended to it (the failure is recorded on the
first entry with that path instead, index 0). -/
theorem c2_counterexample :
    ((executeTransactionInternal cfgAll wFail23 iopsDup).2.1).map
        (fun r => (r.index, r.err.isSome)) = [(1, true), (0, false)] ∧
    ((executeTransactionInternal cfgAll wFail23 iopsDup).1.results.map
        (fun r => (r.rollbackExecuted, r.error))) =
      [(some true, some ("undefined; Rollback failed: " ++
          errMsg (VErr.transport "secret/a"))),
       (none, none),
       (none, some (errMsg (VErr.transport "secret/b")))] := by decide

/-- Witness for C10 at the concrete distinct-path scenario: the entry
whose rollback threw is marked `false` and omitted from
`rollbackResults`. -/
theorem c10_rollbackResults_are_marked_entries_witness :
    (∀ x, x ∈ (executeTransactionInternal cfgAll wFail23
        iopsDistinct).1.rollbackResults ↔
      (x ∈ (executeTransactionInternal cfgAll wFail23
        iopsDistinct).1.results ∧ x.rollbackExecuted = some true)) ∧
    (∃ x, (executeTransactionInternal cfgAll wFail23
        iopsDistinct).1.results.get? 1 = some x ∧
      x.rollbackExecuted = some false ∧
      x ∉ (executeTransactionInternal cfgAll wFail23
        iopsDistinct).1.rollbackResults) := by
  have h := c10_rollbackResults_are_marked_entries cfgAll wFail23 iopsDistinct
    (executeTransactionInternal cfgAll wFail23 iopsDistinct).1
    (executeTransactionInternal cfgAll wFail23 iopsDistinct).2.1
    (executeTransactionInternal cfgAll wFail23 iopsDistinct).2.2 rfl
  refine ⟨h.1, ?_⟩
  exact h.2 (by decide)
    ⟨1, iopsDistinct.get ⟨1, by decide⟩, some (errMsg (VErr.transport "secret/b"))⟩
    (by decide) (errMsg (VErr.transport "secret/b")) rfl

/-- Counterexample to C10 as stated: in the duplicate-path scenario a
committed operation's rollback step throws (one log entry carries an
error), yet no results entry at all is marked `rollbackExecuted = false` —
so the thrown step's operation is not marked `false`, and
`rollbackResults` even contains an entry whose error string records the
rollback failure. -/
theorem c10_counterexample :
    ((executeTransactionInternal cfgAll wFail23 iopsDup).2.1.countP
        (fun r => r.err.isSome)) = 1 ∧
    ((executeTransactionInternal cfgAll wFail23 iopsDup).1.results.countP
        (fun r => r.rollbackExecuted == some false)) = 0 ∧
    ((executeTransactionInternal cfgAll wFail23 iopsDup).1.rollbackResults.map
        (fun r => r.error)) =
      [some ("undefined; Rollback failed: " ++
        errMsg (VErr.transport "secret/a"))] := by decide

/-! ## C4 (amended): a PathNotAllowed denial aborts at the disallowed
operation -/

/-- C4 (amended): a `PathNotAllowed` denial aborts the transaction when
the disallowed operation is reached, before that operation issues any
store call.  When the FIRST operation of the batch is the disallowed one
(so nothing precedes it), no forward store call is made at all and there
is nothing to unwind: the whole call is read-only (only planning reads
happen), `success = false`, the rollback log is empty and
`rolledBack = 0`. -/
theorem c4_denial_aborts_at_disallowed_op (cfg : VaultConfig) (w w₁ : World)
    (op0 : TransactionOperation) (rest : List TransactionOperation)
    (iops : List InternalOp)
    (h0 : isPathAllowed cfg op0.path = false)
    (hp : prepareTransactionOperations cfg w (op0 :: rest) =
      (Except.ok iops, w₁)) :
    executeTransaction cfg w (op0 :: rest) =
      (Except.ok { success := false, results := [], rollbackResults := [],
                   summary := ⟨iops.length, 0, iops.length, 0⟩ }, [], w₁) ∧
    ReadOnlyExt w w₁ := by
  have hfwd := prepareTransactionOperations_ok_forwards cfg (op0 :: rest) w
    iops w₁ hp
  constructor
  · cases iops with
    | nil => simp at hfwd
    | cons i0 it =>
      have hi0 : i0.forward = op0 := by
        have := congrArg (fun l => l.head?) hfwd
        simpa using this
      unfold executeTransaction
      rw [hp]
      dsimp only
      unfold executeTransactionInternal
      unfold runForward
      rw [hi0, h0]
      rfl
  · have hA := prepareTransactionOperations_frame cfg (op0 :: rest) w
    rw [hp] at hA
    exact hA

/-- Witness for C4 (amended): a one-element batch whose only operation
targets the disallowed path `bad/x`. -/
theorem c4_denial_aborts_at_disallowed_op_witness :
    executeTransaction cfgAll emptyWorld [⟨OpType.create, "bad/x", some d1⟩] =
      (Except.ok { success := false, results := [], rollbackResults := [],
                   summary := ⟨1, 0, 1, 0⟩ }, [], emptyWorld) :=
  (c4_denial_aborts_at_disallowed_op cfgAll emptyWorld emptyWorld
    ⟨OpType.create, "bad/x", some d1⟩ []
    [⟨⟨OpType.create, "bad/x", some d1⟩, ⟨OpType.delete, "bad/x", none⟩⟩]
    (by decide) (by decide)).1

/-- Counterexample to C4 as stated: the operation list
`opsAllowedThenDenied` contains an operation on a disallowed path
(`bad/x`), yet a forward store call IS made — the store write for the
first operation appears in the trace — and there is something to unwind
(`rolledBack = 1`). -/
theorem c4_counterexample :
    isPathAllowed cfgAll "bad/x" = false ∧
    ((executeTransaction cfgAll emptyWorld
        opsAllowedThenDenied).2.2.trace.countP
      (fun c => c == StoreCall.writeC "secret/a" d1)) = 1 ∧
    (txOf (executeTransaction cfgAll emptyWorld
        opsAllowedThenDenied).1).summary.rolledBack = 1 := by decide

/-! ## C7: no caching — every operation performs its own real read -/

/-- Counterexample to C7 as stated: one dry-run pass over a create and an
update of the same path `secret/a` performs TWO real store reads of that
path, so a distinct path is not read at most once per simulation pass (and
hence no first-touch cache exists). -/
theorem c7_counterexample :
    ((executeTransactionDryRun cfgAll emptyWorld
        opsCreateThenUpdate).2.trace.countP
      (fun c => c == StoreCall.readC "secret/a")) = 2 := by decide

/-- C7 (amended): during one dry-run pass each operation performs its own
real (non-mutating) read of its own path — at most one raw call per
operation, and at most one per operation across the pass — but the result
is NOT cached: a path touched by several operations is re-read by each of
them, as the concrete pass over `[create secret/a, update secret/a]`
shows (its trace is exactly two reads of `secret/a`).  `SimulatedState`
is consulted only to override the prediction computed from the fresh
read. -/
theorem c7_reads_per_operation_not_cached :
    (∀ (cfg : VaultConfig) (w : World) (op : TransactionOperation),
      ∃ l, (simulateOperation cfg w op).2.trace = w.trace ++ l ∧
        l.length ≤ 1 ∧ l.all (fun c => c == StoreCall.readC op.path) = true) ∧
    (∀ (cfg : VaultConfig) (w : World) (ops : List TransactionOperation),
      ∃ l, (executeTransactionDryRun cfg w ops).2.trace = w.trace ++ l ∧
        l.length ≤ ops.length ∧ l.all (fun c => isReadCall c) = true) ∧
    (executeTransactionDryRun cfgAll emptyWorld opsCreateThenUpdate).2.trace =
      [StoreCall.readC "secret/a", StoreCall.readC "secret/a"] := by
  refine ⟨?_, ?_, by decide⟩
  · intro cfg w op
    exact simulateOperation_reads cfg w op
  · intro cfg w ops
    rw [executeTransactionDryRun_world]
    exact dryRunLoop_reads cfg ops w []

/-! ## C8: dry-run models intra-batch ordering -/

lemma countP_beq_length (l : List α) (p : α → Bool) :
    ((l.countP p == l.length) : Bool) = l.all p := by
  cases hall : l.all p with
  | false =>
    have hne : l.countP p ≠ l.length := by
      intro heq
      rw [List.countP_eq_length] at heq
      have : l.all p = true := List.all_eq_true.2 (fun a ha => heq a ha)
      rw [hall] at this
      cases this
    exact beq_eq_false_iff_ne.mpr hne
  | true =>
    have heq : l.countP p = l.length :=
      List.countP_eq_length.2 (fun a ha => List.all_eq_true.1 hall a ha)
    rw [heq]
    simp

lemma length_sub_countP_beq_zero (l : List α) (p : α → Bool) :
    ((l.length - l.countP p == 0) : Bool) = l.all p := by
  rw [← countP_beq_length l p]
  have hle : l.countP p ≤ l.length := List.countP_le_length p
  cases hbeq : ((l.countP p == l.length) : Bool) with
  | false =>
    have : l.countP p ≠ l.length := beq_eq_false_iff_ne.mp hbeq
    exact beq_eq_false_iff_ne.mpr (by omega)
  | true =>
    have : l.countP p = l.length := beq_iff_eq.mp hbeq
    rw [this]
    simp

/-- C8: the dry-run models intra-batch ordering effects, and the
whole-batch `wouldSucceed` flag is true exactly when every operation would
succeed: (i) universally, the batch flag equals the conjunction of the
per-operation predictions (and equals the dry-run `success` flag); (ii)
simulating `[Create(A,{x:1}), Update(A,{x:2})]` from a store without `A`
predicts both operations succeed; (iii) simulating `[Create(A), Create(A)]`
predicts operation 1 succeeds and operation 2 fails with a validation
error referencing the prior operation in the same batch. -/
theorem c8_intra_batch_sequencing :
    (∀ (cfg : VaultConfig) (w : World) (ops : List TransactionOperation),
      (executeTransactionDryRun cfg w ops).1.wouldSucceed =
        (executeTransactionDryRun cfg w ops).1.results.all
          (fun r => r.wouldSucceed) ∧
      (executeTransactionDryRun cfg w ops).1.success =
        (executeTransactionDryRun cfg w ops).1.wouldSucceed) ∧
    ((executeTransactionDryRun cfgAll emptyWorld
        opsCreateThenUpdate).1.results.map (fun r => r.wouldSucceed)) =
      [true, true] ∧
    ((executeTransactionDryRun cfgAll emptyWorld
        opsCreateTwice).1.results.map
        (fun r => (r.wouldSucceed, r.validationErrors))) =
      [(true, none),
       (false, some
         ["Cannot create: secret would already exist due to previous operation in this transaction"])] := by
  refine ⟨?_, by decide, by decide⟩
  intro cfg w ops
  constructor
  · exact length_sub_countP_beq_zero (dryRunLoop cfg w ops []).1.1
      (fun x => x.wouldSucceed)
  · rfl

/-! ## C9: bulk executors are best-effort -/

lemma bulkWriteLoop_paths (cfg : VaultConfig) (dry : Bool) :
    ∀ (items : List BulkItem) (w : World),
    ((bulkWriteLoop cfg dry w items).1.1).map (fun r => r.path) =
      items.map (fun i => i.path) := by
  intro items
  induction items with
  | nil => intro w; rfl
  | cons item rest ih =>
    intro w
    unfold bulkWriteLoop
    dsimp only
    split
    · simp [ih]
    · split
      · simp [ih]
      · split <;> simp [ih]

lemma bulkWriteLoop_succ (cfg : VaultConfig) (dry : Bool) :
    ∀ (items : List BulkItem) (w : World),
    (bulkWriteLoop cfg dry w items).1.2 =
      ((bulkWriteLoop cfg dry w items).1.1).countP (fun r => r.success) := by
  intro items
  induction items with
  | nil => intro w; rfl
  | cons item rest ih =>
    intro w
    unfold bulkWriteLoop
    dsimp only
    split
    · simp [List.countP_cons, ih]
    · split
      · simp [List.countP_cons, ih, Nat.add_comm]
      · split <;> simp [List.countP_cons, ih, Nat.add_comm]

lemma bulkDeleteLoop_paths (cfg : VaultConfig) (dry : Bool) :
    ∀ (paths : List String) (w : World),
    ((bulkDeleteLoop cfg dry w paths).1.1).map (fun r => r.path) = paths := by
  intro paths
  induction paths with
  | nil => intro w; rfl
  | cons p rest ih =>
    intro w
    unfold bulkDeleteLoop
    dsimp only
    split
    · simp [ih]
    · split
      · simp [ih]
      · split <;> simp [ih]

lemma bulkDeleteLoop_succ (cfg : VaultConfig) (dry : Bool) :
    ∀ (paths : List String) (w : World),
    (bulkDeleteLoop cfg dry w paths).1.2 =
      ((bulkDeleteLoop cfg dry w paths).1.1).countP (fun r => r.success) := by
  intro paths
  induction paths with
  | nil => intro w; rfl
  | cons p rest ih =>
    intro w
    unfold bulkDeleteLoop
    dsimp only
    split
    · simp [List.countP_cons, ih]
    · split
      · simp [List.countP_cons, ih, Nat.add_comm]
      · split <;> simp [List.countP_cons, ih, Nat.add_comm]

lemma bulkReadLoop_paths (cfg : VaultConfig) :
    ∀ (paths : List String) (w : World),
    ((bulkReadLoop cfg w paths).1.1).map (fun r => r.path) = paths := by
  intro paths
  induction paths with
  | nil => intro w; rfl
  | cons p rest ih =>
    intro w
    unfold bulkReadLoop
    dsimp only
    split
    · simp [ih]
    · split <;> simp [ih]

lemma bulkReadLoop_succ (cfg : VaultConfig) :
    ∀ (paths : List String) (w : World),
    (bulkReadLoop cfg w paths).1.2 =
      ((bulkReadLoop cfg w paths).1.1).countP (fun r => r.success) := by
  intro paths
  induction paths with
  | nil => intro w; rfl
  | cons p rest ih =>
    intro w
    unfold bulkReadLoop
    dsimp only
    split
    · simp [List.countP_cons, ih]
    · split <;> simp [List.countP_cons, ih, Nat.add_comm]

/-- C9: the bulk executors (`bulkWriteSecrets`, `bulkReadSecrets`,
`bulkDeleteSecrets`) never abort early: whenever a summary is returned,
every item gets exactly one outcome record, in input order (so items after
a failed item are still processed); `total` is the item count,
`succeeded + failed = total`, and the overall `success` flag is true iff
every item succeeded.  At the concrete 5-item write batch whose third item
targets a disallowed path, the summary is `{total 5, succeeded 4,
failed 1}` and items 1, 2, 4, 5 are persisted in the store while item 3 is
not. -/
theorem c9_bulk_never_aborts_early :
    (∀ (cfg : VaultConfig) (w : World) (items : List BulkItem)
       (s : BulkSummary) (w₂ : World),
      bulkWriteSecrets cfg w items false = (Except.ok s, w₂) →
      s.results.map (fun r => r.path) = items.map (fun i => i.path) ∧
      s.total = items.length ∧ s.succeeded + s.failed = s.total ∧
      s.success = s.results.all (fun r => r.success)) ∧
    (∀ (cfg : VaultConfig) (w : World) (paths : List String)
       (s : BulkSummary) (w₂ : World),
      bulkDeleteSecrets cfg w paths false = (Except.ok s, w₂) →
      s.results.map (fun r => r.path) = paths ∧
      s.total = paths.length ∧ s.succeeded + s.failed = s.total ∧
      s.success = s.results.all (fun r => r.success)) ∧
    (∀ (cfg : VaultConfig) (w : World) (paths : List String)
       (s : BulkSummary) (w₂ : World),
      bulkReadSecrets cfg w paths = (Except.ok s, w₂) →
      s.results.map (fun r => r.path) = paths ∧
      s.total = paths.length ∧ s.succeeded + s.failed = s.total ∧
      s.success = s.results.all (fun r => r.success)) ∧
    ((bsOf (bulkWriteSecrets cfgAll emptyWorld items5 false).1).total = 5 ∧
     (bsOf (bulkWriteSecrets cfgAll emptyWorld items5 false).1).succeeded = 4 ∧
     (bsOf (bulkWriteSecrets cfgAll emptyWorld items5 false).1).failed = 1 ∧
     (bulkWriteSecrets cfgAll emptyWorld items5 false).2.store =
       [("secret/a", d1), ("secret/b", d1), ("secret/d", d1),
        ("secret/e", d1)] ∧
     lookupPath (bulkWriteSecrets cfgAll emptyWorld items5 false).2.store
       "bad/c" = none) := by
  refine ⟨?_, ?_, ?_, by decide⟩
  · intro cfg w items s w₂ h
    unfold bulkWriteSecrets at h
    split at h
    · simp at h
    · dsimp only at h
      cases h
      have hpaths := bulkWriteLoop_paths cfg false items w
      have hsucc := bulkWriteLoop_succ cfg false items w
      have hlen : ((bulkWriteLoop cfg false w items).1.1).length =
          items.length := by
        have := congrArg List.length hpaths
        simpa using this
      have hcle : ((bulkWriteLoop cfg false w items).1.1).countP
          (fun r => r.success) ≤ items.length := by
        rw [← hlen]
        exact List.countP_le_length _
      refine ⟨hpaths, rfl, ?_, ?_⟩
      · show (bulkWriteLoop cfg false w items).1.2 +
          (items.length - (bulkWriteLoop cfg false w items).1.2) = items.length
        rw [hsucc]
        omega
      · show ((bulkWriteLoop cfg false w items).1.2 == items.length) = _
        rw [hsucc, ← hlen]
        exact countP_beq_length _ _
  · intro cfg w paths s w₂ h
    unfold bulkDeleteSecrets at h
    split at h
    · simp at h
    · dsimp only at h
      cases h
      have hpaths := bulkDeleteLoop_paths cfg false paths w
      have hsucc := bulkDeleteLoop_succ cfg false paths w
      have hlen : ((bulkDeleteLoop cfg false w paths).1.1).length =
          paths.length := by
        have := congrArg List.length hpaths
        simpa using this
      have hcle : ((bulkDeleteLoop cfg false w paths).1.1).countP
          (fun r => r.success) ≤ paths.length := by
        rw [← hlen]
        exact List.countP_le_length _
      refine ⟨hpaths, rfl, ?_, ?_⟩
      · show (bulkDeleteLoop cfg false w paths).1.2 +
          (paths.length - (bulkDeleteLoop cfg false w paths).1.2) = paths.length
        rw [hsucc]
        omega
      · show ((bulkDeleteLoop cfg false w paths).1.2 == paths.length) = _
        rw [hsucc, ← hlen]
        exact countP_beq_length _ _
  · intro cfg w paths s w₂ h
    unfold bulkReadSecrets at h
    split at h
    · simp at h
    · dsimp only at h
      cases h
      have hpaths := bulkReadLoop_paths cfg paths w
      have hsucc := bulkReadLoop_succ cfg paths w
      have hlen : ((bulkReadLoop cfg w paths).1.1).length = paths.length := by
        have := congrArg List.length hpaths
        simpa using this
      have hcle : ((bulkReadLoop cfg w paths).1.1).countP
          (fun r => r.success) ≤ paths.length := by
        rw [← hlen]
        exact List.countP_le_length _
      refine ⟨hpaths, rfl, ?_, ?_⟩
      · show (bulkReadLoop cfg w paths).1.2 +
          (paths.length - (bulkReadLoop cfg w paths).1.2) = paths.length
        rw [hsucc]
        omega
      · show ((bulkReadLoop cfg w paths).1.2 == paths.length) = _
        rw [hsucc, ← hlen]
        exact countP_beq_length _ _

/-- Witness for C9: the write branch applied at the concrete 5-item batch
(the fourth conjunct of the theorem already evaluates the same batch
concretely). -/
theorem c9_bulk_never_aborts_early_witness :
    (bsOf (bulkWriteSecrets cfgAll emptyWorld items5 false).1).results.map
        (fun r => r.path) = items5.map (fun i => i.path) ∧
    (bsOf (bulkWriteSecrets cfgAll emptyWorld items5 false).1).success =
      (bsOf (bulkWriteSecrets cfgAll emptyWorld items5 false).1).results.all
        (fun r => r.success) := by
  have h := (c9_bulk_never_aborts_early).1 cfgAll emptyWorld items5
    (bsOf (bulkWriteSecrets cfgAll emptyWorld items5 false).1)
    (bulkWriteSecrets cfgAll emptyWorld items5 false).2 (by decide)
  exact ⟨h.1, h.2.2.2⟩

end VaultTx
